import Mathlib

/-!
Verification development for the goldfish-api task/project manager.

The Python services (`app/services/*.py`), their SQLAlchemy schema
(`app/db/schema.py`) and the pydantic input models (`app/models/*.py`) are
shallowly embedded as pure Lean functions over an explicit `Store` value.

Modelling conventions:
* `uuid.UUID` primary keys are modelled as `Nat` (only identity and ordering
  matter); timestamps (`datetime.now(timezone.utc)`) are modelled as `Nat`
  values passed in explicitly as a `now` argument.
* SQL `FLOAT` columns (`sort_order`) are modelled as `Rat`; the additions the
  code performs (`+ 1.0`) are exact in both representations for every value
  the claims concern.
* `date` columns are modelled by their ISO `YYYY-MM-DD` string (the pydantic
  validators restrict inputs to that shape, on which parsing is injective).
* Each service call runs in one transaction that is rolled back on error, so
  fallible operations return `Except Err (result × Store)`: the error case
  carries no store, meaning the store is unchanged.
* `session.query(...).first()` + in-place ORM mutation is modelled by
  `updateFirst`; `session.query(...).update({...})` (which touches every
  matching row) is modelled by `List.map` with a guard.
* Python `str.strip()` is `pyStrip` and `str.lower()` / SQL `ilike` case
  folding is `lowerStr` (ASCII folding, exactly SQLite's `LIKE`
  case-insensitivity; the claim inputs are ASCII).
-/

namespace Goldfish

/-- Python `str.strip()` on the character list: drop whitespace from both
ends. -/
def stripChars (l : List Char) : List Char :=
  ((l.dropWhile Char.isWhitespace).reverse.dropWhile Char.isWhitespace).reverse

/-- Python `str.strip()`: drop whitespace from both ends. -/
def pyStrip (s : String) : String := ⟨stripChars s.data⟩

/-- ASCII lower-casing of one character (the case folding SQLite's `LIKE`
performs, and Python's `str.lower()` restricted to ASCII). -/
def asciiLower (c : Char) : Char :=
  match c with
  | 'A' => 'a' | 'B' => 'b' | 'C' => 'c' | 'D' => 'd' | 'E' => 'e'
  | 'F' => 'f' | 'G' => 'g' | 'H' => 'h' | 'I' => 'i' | 'J' => 'j'
  | 'K' => 'k' | 'L' => 'l' | 'M' => 'm' | 'N' => 'n' | 'O' => 'o'
  | 'P' => 'p' | 'Q' => 'q' | 'R' => 'r' | 'S' => 's' | 'T' => 't'
  | 'U' => 'u' | 'V' => 'v' | 'W' => 'w' | 'X' => 'x' | 'Y' => 'y'
  | 'Z' => 'z' | c => c

/-- ASCII lower-casing of a string, character by character. -/
def lowerStr (s : String) : String := ⟨s.data.map asciiLower⟩

/-- Byte-order (code-point) comparison of strings, as SQLite's default
BINARY collation orders `TEXT` columns (UTF-8 preserves code-point order). -/
def listCharLe : List Char → List Char → Bool
  | [], _ => true
  | _ :: _, [] => false
  | a :: as, b :: bs => if a = b then listCharLe as bs else decide (a < b)

/-- Hex colour check `#rgb` / `#rrggbb`, from `HEX_COLOR_PATTERN` in
`app/models/tag.py` and `app/models/project.py`. -/
def isHexDigit (c : Char) : Bool :=
  c.isDigit || ('a' ≤ c && c ≤ 'f') || ('A' ≤ c && c ≤ 'F')

def isHexColor (s : String) : Bool :=
  match s.data with
  | '#' :: rest => (rest.length == 3 || rest.length == 6) && rest.all isHexDigit
  | _ => false

/-- Two decimal digits to a number (helper for date validation). -/
def digits2 (a b : Char) : Nat := (a.toNat - 48) * 10 + (b.toNat - 48)

def isLeapYear (y : Nat) : Bool := (y % 4 == 0 && y % 100 != 0) || y % 400 == 0

def daysInMonth (y m : Nat) : Nat :=
  if m = 2 then (if isLeapYear y then 29 else 28)
  else if m = 4 ∨ m = 6 ∨ m = 9 ∨ m = 11 then 30
  else 31

/-- Validity of a `YYYY-MM-DD` string as accepted by Python's
`date.fromisoformat` (the only shape the pydantic regex admits). -/
def isValidISODate (s : String) : Bool :=
  match s.data with
  | [y1, y2, y3, y4, '-', m1, m2, '-', d1, d2] =>
    ([y1, y2, y3, y4, m1, m2, d1, d2].all Char.isDigit) &&
    (let y := ((digits2 y1 y2) * 100 + digits2 y3 y4)
     let m := digits2 m1 m2
     let d := digits2 d1 d2
     (1 ≤ y && 1 ≤ m && m ≤ 12 && 1 ≤ d && d ≤ daysInMonth y m))
  | _ => false

/-- `view_mode_enum` from `app/db/schema.py`. -/
inductive ViewMode where
  | list : ViewMode
  | board : ViewMode
deriving DecidableEq, Repr

/-- Error taxonomy of the services: `notFound` is HTTP 404,
`validationError` is HTTP 422 (with its `detail` string), `conflict` is
HTTP 409. `integrityError` is an *unhandled* `sqlalchemy.IntegrityError`
raised at commit time by a table-level constraint (no layer catches it,
so the request fails with HTTP 500); `valueError` is an *unhandled*
Python `ValueError` escaping the service (also HTTP 500). In both
unhandled cases the transaction rolls back, leaving the store
unchanged. -/
inductive Err where
  | notFound : Err
  | validationError : String → Err
  | conflict : Err
  | integrityError : Err
  | valueError : Err
deriving DecidableEq, Repr

/-- Row of the `project` table (`app/db/schema.py`, class `Project`). -/
structure Project where
  id : Nat
  created_at : Nat
  updated_at : Nat
  name : String
  description : String
  color : String
  icon : String
  view_mode : ViewMode
  is_archived : Bool
  sort_order : Rat
  deleted_at : Option Nat
deriving DecidableEq, Repr

/-- Row of the `tag` table (`app/db/schema.py`, class `Tag`). -/
structure Tag where
  id : Nat
  created_at : Nat
  updated_at : Nat
  name : String
  color : String
  deleted_at : Option Nat
deriving DecidableEq, Repr

/-- Row of the `task` table (`app/db/schema.py`, class `Task`).
`notes` and `notes_plain` are nullable columns, hence `Option String`. -/
structure Task where
  id : Nat
  created_at : Nat
  updated_at : Nat
  title : String
  notes : Option String
  notes_plain : Option String
  is_completed : Bool
  completed_at : Option Nat
  priority : Nat
  due_date : Option String
  due_time : Option String
  start_date : Option String
  project_id : Option Nat
  sort_order : Rat
  sort_order_board : Rat
  deleted_at : Option Nat
deriving DecidableEq, Repr

/-- Row of the `reminder` table (`app/db/schema.py`, class `Reminder`);
carried for data-model completeness, no claim exercises the reminder
service. -/
structure Reminder where
  id : Nat
  created_at : Nat
  updated_at : Nat
  task_id : Nat
  remind_at : Nat
  relative_minutes : Option Int
  is_fired : Bool
  deleted_at : Option Nat
deriving DecidableEq, Repr

/-- The relational store: one list per table plus the `task_tag_link`
association rows `(task_id, tag_id)`. -/
structure Store where
  projects : List Project
  tasks : List Task
  tags : List Tag
  links : List (Nat × Nat)
  reminders : List Reminder
deriving DecidableEq, Repr

def emptyStore : Store := ⟨[], [], [], [], []⟩

instance {ε α : Type} [DecidableEq ε] [DecidableEq α] : DecidableEq (Except ε α) :=
  fun a b =>
    match a, b with
    | .ok x, .ok y =>
      if h : x = y then .isTrue (by rw [h]) else .isFalse (by simp [h])
    | .error e, .error e' =>
      if h : e = e' then .isTrue (by rw [h]) else .isFalse (by simp [h])
    | .ok _, .error _ => .isFalse (by simp)
    | .error _, .ok _ => .isFalse (by simp)

/-- Replace the first element satisfying `p` by its image under `f`
(a `session.query(...).first()` result mutated in place). -/
def updateFirst (p : α → Bool) (f : α → α) : List α → List α
  | [] => []
  | x :: xs => if p x then f x :: xs else x :: updateFirst p f xs

/-- `ProjectService._validate_project_exists` /
`TaskService._validate_project_exists`: the referenced project exists and is
not soft-deleted. -/
def validProject (s : Store) (pid : Nat) : Bool :=
  s.projects.any (fun p => p.id == pid && p.deleted_at == none)

/-- The tag ids of `tag_ids` that do not resolve to a live tag
(`TaskService._validate_tag_ids_exist` raises 422 when nonempty). -/
def missingTagIds (s : Store) (tag_ids : List Nat) : List Nat :=
  tag_ids.filter (fun tid => !(s.tags.any (fun g => g.id == tid && g.deleted_at == none)))

/-- `ProjectCreate` (`app/models/project.py`) after pydantic validation:
`name` is stripped and non-empty, `color` a stripped hex colour. -/
structure ProjectCreate where
  name : String
  description : String := ""
  color : String := "#6366f1"
  icon : String := "folder"
  view_mode : ViewMode := .list
deriving DecidableEq, Repr

/-- `ProjectUpdate` (`app/models/project.py`): `none` means the field was
not supplied (`model_dump(exclude_unset=True)` drops it). Explicitly
supplying `null` for a non-nullable column is not modelled (it would fail
at commit in the source). -/
structure ProjectUpdate where
  name : Option String := none
  description : Option String := none
  color : Option String := none
  icon : Option String := none
  view_mode : Option ViewMode := none
  is_archived : Option Bool := none
  sort_order : Option Rat := none
deriving DecidableEq, Repr

def applyProjectUpdate (d : ProjectUpdate) (p : Project) : Project :=
  { p with
    name := d.name.getD p.name,
    description := d.description.getD p.description,
    color := d.color.getD p.color,
    icon := d.icon.getD p.icon,
    view_mode := d.view_mode.getD p.view_mode,
    is_archived := d.is_archived.getD p.is_archived,
    sort_order := d.sort_order.getD p.sort_order }

/-- `ProjectService.get_projects`: non-deleted, non-archived projects
ordered by `sort_order` asc then `name` asc, each with the count of its
non-deleted, incomplete tasks. -/
def projLe (a b : Project) : Bool :=
  if a.sort_order = b.sort_order then listCharLe a.name.data b.name.data
  else decide (a.sort_order < b.sort_order)

def projOrd (a b : Project) : Prop := projLe a b = true

instance : DecidableRel projOrd :=
  fun a b => inferInstanceAs (Decidable (projLe a b = true))

def Store.get_projects (s : Store) : List (Project × Nat) :=
  let projs := s.projects.filter (fun p => p.deleted_at == none && p.is_archived == false)
  (List.insertionSort projOrd projs).map (fun p =>
    (p, (s.tasks.filter (fun t =>
      t.project_id == some p.id && t.deleted_at == none && t.is_completed == false)).length))

/-- `ProjectService.get_project`: single project with task count, 404 when
missing or soft-deleted. -/
def Store.get_project (s : Store) (project_id : Nat) : Except Err (Project × Nat) :=
  match s.projects.find? (fun p => p.id == project_id && p.deleted_at == none) with
  | none => .error .notFound
  | some p => .ok (p, (s.tasks.filter (fun t =>
      t.project_id == some project_id && t.deleted_at == none && t.is_completed == false)).length)

/-- `ProjectService.create_project`. `id` models the generated UUID and
`now` the creation instant (`created_at` and `updated_at` defaults). -/
def Store.create_project (s : Store) (d : ProjectCreate) (id now : Nat) :
    Except Err (Project × Store) :=
  let p : Project :=
    { id := id, created_at := now, updated_at := now, name := d.name,
      description := d.description, color := d.color, icon := d.icon,
      view_mode := d.view_mode, is_archived := false, sort_order := 0,
      deleted_at := none }
  .ok (p, { s with projects := s.projects ++ [p] })

/-- `ProjectService.update_project`. -/
def Store.update_project (s : Store) (project_id : Nat) (d : ProjectUpdate) :
    Except Err (Project × Store) :=
  match s.projects.find? (fun p => p.id == project_id && p.deleted_at == none) with
  | none => .error .notFound
  | some p =>
    let projects := updateFirst (fun q => q.id == project_id && q.deleted_at == none)
      (applyProjectUpdate d) s.projects
    .ok (applyProjectUpdate d p, { s with projects := projects })

/-- The per-task effect of `delete_project`'s bulk
`query(Task).update({Task.project_id: None})`: unassign non-deleted tasks
of the project. -/
def unassignStep (project_id : Nat) (t : Task) : Task :=
  if t.project_id == some project_id && t.deleted_at == none then
    { t with project_id := none } else t

/-- `ProjectService.delete_project`: 404 when missing or already deleted;
otherwise null out `project_id` on every non-deleted task of the project
(a bulk `query(...).update`, hence a guarded map), then mark the project
deleted. -/
def Store.delete_project (s : Store) (project_id now : Nat) : Except Err Store :=
  match s.projects.find? (fun p => p.id == project_id && p.deleted_at == none) with
  | none => .error .notFound
  | some _ =>
    .ok { s with
      tasks := s.tasks.map (unassignStep project_id),
      projects :=
        updateFirst (fun p => p.id == project_id && p.deleted_at == none)
          (fun p => { p with deleted_at := some now }) s.projects }

/-- `TagService.get_tags`: live tags in table order (no ORDER BY). -/
def Store.get_tags (s : Store) : List Tag :=
  s.tags.filter (fun g => g.deleted_at == none)

/-- `TagService.create_tag`, including the pydantic `TagCreate` validators
(`name` stripped and non-empty, `color` stripped hex). Takes the raw
`name`/`color` strings; `id`/`now` model the generated UUID and timestamps.
The service compares `Tag.name == tag.name.strip()`, i.e. it strips the
(already stripped) validated name once more. After the service's
live-only duplicate check, the INSERT at `session.commit()` is still
subject to the table-level `UNIQUE` on `tag.name` (`schema.py:86`,
`unique=True`), which also counts soft-deleted rows; that
`IntegrityError` is caught nowhere, so reusing a deleted tag's name
fails with `integrityError` instead of succeeding. -/
def Store.create_tag (s : Store) (rawName rawColor : String) (id now : Nat) :
    Except Err (Tag × Store) :=
  if pyStrip rawName = "" then .error (.validationError "name must not be empty")
  else if !isHexColor (pyStrip rawColor) then
    .error (.validationError "color must be a hex color")
  else if s.tags.any (fun g =>
      g.deleted_at == none && g.name == pyStrip (pyStrip rawName)) then
    .error .conflict
  else if s.tags.any (fun g => g.name == pyStrip rawName) then
    .error .integrityError
  else
    let g : Tag := { id := id, created_at := now, updated_at := now,
                     name := pyStrip rawName, color := pyStrip rawColor,
                     deleted_at := none }
    .ok (g, { s with tags := s.tags ++ [g] })

/-- `TagService.get_tag`. -/
def Store.get_tag (s : Store) (tag_id : Nat) : Except Err Tag :=
  match s.tags.find? (fun g => g.id == tag_id && g.deleted_at == none) with
  | none => .error .notFound
  | some g => .ok g

/-- `TagUpdate` after pydantic validation (a supplied `name` is stripped
and non-empty, a supplied `color` stripped hex); `none` = unset. -/
structure TagUpdate where
  name : Option String := none
  color : Option String := none
deriving DecidableEq, Repr

/-- `TagService.update_tag`: 404 when missing/deleted; when a `name` is
supplied, 409 when another live tag carries that (stripped) name. The
UPDATE at commit is still subject to the table-level `UNIQUE` on
`tag.name` (`schema.py:86`): renaming onto a soft-deleted tag's name
passes the live-only check but raises an uncaught `IntegrityError`. -/
def Store.update_tag (s : Store) (tag_id : Nat) (d : TagUpdate) :
    Except Err (Tag × Store) :=
  match s.tags.find? (fun g => g.id == tag_id && g.deleted_at == none) with
  | none => .error .notFound
  | some g =>
    if (match d.name with
        | some n => s.tags.any (fun o =>
            o.deleted_at == none && o.name == pyStrip n && o.id != tag_id)
        | none => false) then
      .error .conflict
    else if (match d.name with
        | some n => s.tags.any (fun o => o.name == n && o.id != tag_id)
        | none => false) then
      .error .integrityError
    else
      let f := fun (t : Tag) =>
        { t with name := d.name.getD t.name, color := d.color.getD t.color }
      let tags := updateFirst (fun o => o.id == tag_id && o.deleted_at == none) f s.tags
      .ok (f g, { s with tags := tags })

/-- `TagService.delete_tag`: soft delete, no cascade on the association
rows. -/
def Store.delete_tag (s : Store) (tag_id now : Nat) : Except Err Store :=
  match s.tags.find? (fun g => g.id == tag_id && g.deleted_at == none) with
  | none => .error .notFound
  | some _ =>
    let tags := updateFirst (fun g => g.id == tag_id && g.deleted_at == none)
      (fun g => { g with deleted_at := some now }) s.tags
    .ok { s with tags := tags }

/-- `TaskCreate` (`app/models/task.py`) after pydantic validation: `title`
stripped non-empty, `priority` in `0..4`, `due_date` a stripped
`YYYY-MM-DD`-shaped string, `due_time` a stripped `HH:MM[:SS]` string. -/
structure TaskCreate where
  title : String
  notes : String := ""
  priority : Nat := 0
  due_date : Option String := none
  due_time : Option String := none
  project_id : Option Nat := none
  tag_ids : List Nat := []
deriving DecidableEq, Repr

/-- `TaskUpdate` (`app/models/task.py`): an outer `none` means the field was
not supplied (dropped by `model_dump(exclude_unset=True)`); for nullable
columns the inner `Option` is the stored value, so `some none` models an
explicit `null` in the request. Explicit `null` for the non-nullable
`title`/`priority`/`sort_order` columns is not modelled (it would fail at
commit in the source). -/
structure TaskUpdate where
  title : Option String := none
  notes : Option (Option String) := none
  priority : Option Nat := none
  due_date : Option (Option String) := none
  due_time : Option (Option String) := none
  project_id : Option (Option Nat) := none
  sort_order : Option Rat := none
  tag_ids : Option (List Nat) := none
deriving DecidableEq, Repr

/-- Field-by-field overwrite of `update_task`'s `setattr` loop. -/
def applyTaskUpdate (d : TaskUpdate) (t : Task) : Task :=
  { t with
    title := d.title.getD t.title,
    notes := d.notes.getD t.notes,
    priority := d.priority.getD t.priority,
    due_date := d.due_date.getD t.due_date,
    due_time := d.due_time.getD t.due_time,
    project_id := d.project_id.getD t.project_id,
    sort_order := d.sort_order.getD t.sort_order }

/-- The maximum of a list of sort orders: the source reads it as
`query(Task.sort_order).order_by(Task.sort_order.desc()).first()`. -/
def maxSortOrder : List Rat → Option Rat
  | [] => none
  | x :: xs =>
    match maxSortOrder xs with
    | none => some x
    | some m => some (if x ≤ m then m else x)

/-- The `sort_order` `create_task` hands out: max over non-deleted tasks
plus one, or zero when there is none (`max_row` logic in the source). -/
def nextSortOrder (s : Store) : Rat :=
  match maxSortOrder ((s.tasks.filter (fun u => u.deleted_at == none)).map
    (fun u => u.sort_order)) with
  | none => 0
  | some m => m + 1

/-- `TaskService.get_tasks` restricted to the default sort
(`sort_by="sort_order"`, `order="asc"`) and default pagination
(`limit=None`, `offset=0`) — the only form the claims exercise; the four
optional equality filters and their validation are modelled in full.
`priority` outside `0..4` and a malformed `due_date` fail with 422. -/
def taskOrd (a b : Task) : Prop := a.sort_order ≤ b.sort_order

instance : DecidableRel taskOrd :=
  fun a b => inferInstanceAs (Decidable (a.sort_order ≤ b.sort_order))

def Store.get_tasks (s : Store) (project_id : Option Nat := none)
    (is_completed : Option Bool := none) (priority : Option Nat := none)
    (due_date : Option String := none) : Except Err (List Task) :=
  if (match priority with | some p => !(p ≤ 4) | none => false) then
    .error (.validationError "priority must be between 0 and 4")
  else if (match due_date with | some ds => !isValidISODate ds | none => false) then
    .error (.validationError "due_date must be ISO date")
  else
    .ok (List.insertionSort taskOrd (s.tasks.filter (fun t =>
      t.deleted_at == none
      && (match project_id with | some pid => t.project_id == some pid | none => true)
      && (match is_completed with | some b => t.is_completed == b | none => true)
      && (match priority with | some p => t.priority == p | none => true)
      && (match due_date with | some ds => t.due_date == some ds | none => true))))

/-- `TaskService.create_task`: validate `project_id` (404) and `tag_ids`
(422), compute `sort_order` as max over non-deleted tasks `+ 1.0` (or
`0.0` when none), insert the task and its tag links. The pydantic
validator only checks `due_date` against the shape regex
`^\d{4}-\d{2}-\d{2}$`, so a calendar-invalid string like `2024-13-01`
reaches `date.fromisoformat(data.due_date)` at `tasks.py:114`; unlike
`update_task`, this call is not wrapped in `try/except ValueError`, so
the `ValueError` escapes uncaught (HTTP 500, transaction rolled back). -/
def Store.create_task (s : Store) (d : TaskCreate) (id now : Nat) :
    Except Err (Task × Store) :=
  if (match d.project_id with | some pid => !validProject s pid | none => false) then
    .error .notFound
  else if missingTagIds s d.tag_ids ≠ [] then
    .error (.validationError "Tag(s) not found")
  else if (match d.due_date with | some ds => !isValidISODate ds | none => false) then
    .error .valueError
  else
    let next : Rat := nextSortOrder s
    let t : Task :=
      { id := id, created_at := now, updated_at := now, title := d.title,
        notes := some d.notes, notes_plain := some d.notes,
        is_completed := false, completed_at := none, priority := d.priority,
        due_date := d.due_date, due_time := d.due_time, start_date := none,
        project_id := d.project_id, sort_order := next, sort_order_board := 0,
        deleted_at := none }
    let tasks := s.tasks ++ [t]
    let links := s.links ++ d.tag_ids.map (fun g => (id, g))
    .ok (t, { s with tasks := tasks, links := links })

/-- `TaskService.get_task`. -/
def Store.get_task (s : Store) (task_id : Nat) : Except Err Task :=
  match s.tasks.find? (fun t => t.id == task_id && t.deleted_at == none) with
  | none => .error .notFound
  | some t => .ok t

/-- `TaskService.update_task`: 404 when the task is missing or deleted;
validate a supplied non-null `project_id` (404) and supplied `tag_ids`
(422); a supplied `tag_ids` replaces the whole association set
(delete-all-then-insert); a supplied non-null `due_date` must parse (422)
and a supplied `priority` must be in range (422). The transaction commits
only at the end, so every error leaves the store unchanged. -/
def Store.update_task (s : Store) (task_id : Nat) (d : TaskUpdate) :
    Except Err (Task × Store) :=
  match s.tasks.find? (fun t => t.id == task_id && t.deleted_at == none) with
  | none => .error .notFound
  | some t =>
    if (match d.project_id with
        | some (some pid) => !validProject s pid
        | _ => false) then .error .notFound
    else if (match d.tag_ids with
        | some tids => missingTagIds s tids != []
        | none => false) then .error (.validationError "Tag(s) not found")
    else if (match d.due_date with
        | some (some ds) => !isValidISODate ds
        | _ => false) then .error (.validationError "due_date must be ISO date")
    else if (match d.priority with
        | some p => !(p ≤ 4)
        | none => false) then .error (.validationError "priority must be between 0 and 4")
    else
      let links := match d.tag_ids with
        | some tids => s.links.filter (fun l => l.1 != task_id)
            ++ tids.map (fun g => (task_id, g))
        | none => s.links
      let tasks := updateFirst (fun u => u.id == task_id && u.deleted_at == none)
        (applyTaskUpdate d) s.tasks
      .ok (applyTaskUpdate d t, { s with tasks := tasks, links := links })

/-- `TaskService.delete_task`: soft delete. -/
def Store.delete_task (s : Store) (task_id now : Nat) : Except Err Store :=
  match s.tasks.find? (fun t => t.id == task_id && t.deleted_at == none) with
  | none => .error .notFound
  | some _ =>
    let tasks := updateFirst (fun t => t.id == task_id && t.deleted_at == none)
      (fun t => { t with deleted_at := some now }) s.tasks
    .ok { s with tasks := tasks }

/-- The per-task effect of `complete_toggle`: flip `is_completed`, set
`completed_at` to now when the new value is true, clear it otherwise. -/
def toggleTask (now : Nat) (t : Task) : Task :=
  { t with is_completed := !t.is_completed,
           completed_at := if !t.is_completed then some now else none }

/-- `TaskService.complete_toggle`. -/
def Store.complete_toggle (s : Store) (task_id now : Nat) :
    Except Err (Task × Store) :=
  match s.tasks.find? (fun t => t.id == task_id && t.deleted_at == none) with
  | none => .error .notFound
  | some t =>
    let tasks := updateFirst (fun u => u.id == task_id && u.deleted_at == none)
      (toggleTask now) s.tasks
    .ok (toggleTask now t, { s with tasks := tasks })

/-- `TaskService.bulk_complete`: 404 when the project is missing/deleted;
every non-deleted, incomplete task of the project becomes completed with
one shared `now`; returns the count affected. -/
def bulkPred (project_id : Nat) (t : Task) : Bool :=
  t.deleted_at == none && t.project_id == some project_id && t.is_completed == false

def Store.bulk_complete (s : Store) (project_id now : Nat) :
    Except Err (Nat × Store) :=
  if !validProject s project_id then .error .notFound
  else
    let tasks := s.tasks.map (fun t =>
      if bulkPred project_id t then
        { t with is_completed := true, completed_at := some now } else t)
    .ok ((s.tasks.filter (bulkPred project_id)).length, { s with tasks := tasks })

/-- The per-item effect of `reorder`: overwrite `sort_order` when the id
matches a non-deleted task (a `query(...).update`, hence applied to every
matching row). -/
def reorderStep (i : Nat × Rat) (t : Task) : Task :=
  if t.id == i.1 && t.deleted_at == none then { t with sort_order := i.2 } else t

/-- `TaskService.reorder` including the `TaskReorder` pydantic validator
(`items` must be non-empty, else 422): each `(id, sort_order)` pair in
order overwrites that task's `sort_order` when the task is non-deleted,
silently skipping unknown/deleted ids. -/
def Store.reorder (s : Store) (items : List (Nat × Rat)) : Except Err Store :=
  if items = [] then .error (.validationError "items must not be empty")
  else .ok { s with tasks := items.foldl (fun ts i => ts.map (reorderStep i)) s.tasks }

/-- `f` holds of some suffix of the list (helper for `%` in LIKE
patterns). -/
def anySuffix (f : List Char → Bool) : List Char → Bool
  | [] => f []
  | d :: s' => f (d :: s') || anySuffix f s'

/-- SQL `LIKE` pattern matching (SQLite semantics, no ESCAPE clause):
`%` matches any sequence, `_` any single character, anything else itself.
Both sides are already case-folded by the caller. -/
def likeMatch : List Char → List Char → Bool
  | [], s => s.isEmpty
  | c :: ps, s =>
    if c = '%' then anySuffix (likeMatch ps) s
    else match s with
      | [] => false
      | d :: s' => (c = '_' || c = d) && likeMatch ps s'

/-- `column.ilike(f"%{q}%")`: case-insensitive LIKE against the pattern
`%q%` (SQLite folds ASCII case only). -/
def ilikeContains (q s : String) : Bool :=
  likeMatch ('%' :: (lowerStr q).data ++ ['%']) (lowerStr s).data

/-- `ilike` applied to a nullable column: SQL `NULL LIKE p` is not true. -/
def optIlike (q : String) : Option String → Bool
  | some s => ilikeContains q s
  | none => false

/-- `SearchService._normalize_query`: strip; `None` (rejected) when the
stripped query is empty or longer than 100 characters. -/
def normalizeQuery (q : String) : Option String :=
  let s := pyStrip q
  if s = "" ∨ s.length > 100 then none else some s

/-- The row filter of `SearchService.search` for a normalized query. -/
def searchCond (nq : String) (project_id : Option Nat) (include_completed : Bool)
    (t : Task) : Bool :=
  t.deleted_at == none
  && (ilikeContains nq t.title || optIlike nq t.notes_plain || optIlike nq t.notes)
  && (match project_id with | some pid => t.project_id == some pid | none => true)
  && (include_completed || t.is_completed == false)

def taskIdOrd (a b : Task) : Prop := a.id ≤ b.id

instance : DecidableRel taskIdOrd :=
  fun a b => inferInstanceAs (Decidable (a.id ≤ b.id))

/-- `SearchService.search`: empty result on a rejected query; otherwise
the matching non-deleted tasks ordered by id, capped at 50. -/
def Store.search (s : Store) (q : String) (project_id : Option Nat := none)
    (include_completed : Bool := false) : List Task :=
  match normalizeQuery q with
  | none => []
  | some nq =>
    (List.insertionSort taskIdOrd
      (s.tasks.filter (searchCond nq project_id include_completed))).take 50

/-- The stores reachable from the empty store by the exposed mutating
operations, with arbitrary inputs, ids and clock values. -/
inductive Reachable : Store → Prop where
  | empty : Reachable emptyStore
  | create_project {s d id now p s'} : Reachable s →
      s.create_project d id now = .ok (p, s') → Reachable s'
  | update_project {s pid d p s'} : Reachable s →
      s.update_project pid d = .ok (p, s') → Reachable s'
  | delete_project {s pid now s'} : Reachable s →
      s.delete_project pid now = .ok s' → Reachable s'
  | create_tag {s n c id now g s'} : Reachable s →
      s.create_tag n c id now = .ok (g, s') → Reachable s'
  | update_tag {s gid d g s'} : Reachable s →
      s.update_tag gid d = .ok (g, s') → Reachable s'
  | delete_tag {s gid now s'} : Reachable s →
      s.delete_tag gid now = .ok s' → Reachable s'
  | create_task {s d id now t s'} : Reachable s →
      s.create_task d id now = .ok (t, s') → Reachable s'
  | update_task {s tid d t s'} : Reachable s →
      s.update_task tid d = .ok (t, s') → Reachable s'
  | delete_task {s tid now s'} : Reachable s →
      s.delete_task tid now = .ok s' → Reachable s'
  | complete_toggle {s tid now t s'} : Reachable s →
      s.complete_toggle tid now = .ok (t, s') → Reachable s'
  | bulk_complete {s pid now n s'} : Reachable s →
      s.bulk_complete pid now = .ok (n, s') → Reachable s'
  | reorder {s items s'} : Reachable s →
      s.reorder items = .ok s' → Reachable s'

/-- The completion-pair invariant of a task row: `completed_at` is non-null
exactly when `is_completed` is true. -/
def TaskOK (t : Task) : Prop := t.completed_at.isSome = t.is_completed

/-- A sequence of `create_task` calls, stopping at the first error. -/
def createMany (s : Store) : List (TaskCreate × Nat × Nat) → Except Err Store
  | [] => .ok s
  | (d, id, now) :: rest =>
    match s.create_task d id now with
    | .error e => .error e
    | .ok (_, s') => createMany s' rest

/-- `[0, 1, …, n-1]` as rationals: the sort orders the append policy hands
out to `n` consecutive creations. -/
def ratRange (n : Nat) : List Rat := (List.range n).map (fun i : Nat => (i : Rat))

/-- Specification-side characterization of one reorder batch applied to one
task: a non-deleted task named by the batch receives the value of the last
pair carrying its id; deleted or unnamed tasks are untouched. -/
def lastAssigned (items : List (Nat × Rat)) (t : Task) : Option Rat :=
  if t.deleted_at = none then
    ((items.filter (fun i => i.1 == t.id)).map Prod.snd).getLast?
  else none

/-- The cumulative effect of a reorder batch on a single task row. -/
def applyItems (items : List (Nat × Rat)) (t : Task) : Task :=
  items.foldl (fun u i => reorderStep i u) t

/-- Specification-side reading of "the query occurs as a case-insensitive
substring": the folded query is an infix of the folded text. -/
def specContainsCI (q s : String) : Prop :=
  (lowerStr q).data <:+: (lowerStr s).data

instance (q s : String) : Decidable (specContainsCI q s) :=
  inferInstanceAs (Decidable ((lowerStr q).data <:+: (lowerStr s).data))

/-- `NULL`-aware version of `specContainsCI` for nullable columns. -/
def optSpecContainsCI (q : String) : Option String → Prop
  | some s => specContainsCI q s
  | none => False

/-- A LIKE-wildcard-free string: no `%` and no `_` characters. -/
def wildcardFree (q : String) : Prop := ∀ c ∈ q.data, c ≠ '%' ∧ c ≠ '_'

/-! ### Concrete fixtures used to instantiate the theorems below -/

def fixTask (i : Nat) : Task :=
  { id := i, created_at := 0, updated_at := 0, title := "t", notes := some "",
    notes_plain := some "", is_completed := false, completed_at := none,
    priority := 0, due_date := none, due_time := none, start_date := none,
    project_id := none, sort_order := 0, sort_order_board := 0, deleted_at := none }

def fixProject (i : Nat) (nm : String) : Project :=
  { id := i, created_at := 0, updated_at := 0, name := nm, description := "",
    color := "#6366f1", icon := "folder", view_mode := .list, is_archived := false,
    sort_order := 0, deleted_at := none }

/-- A project with two live tasks assigned to it and one live unassigned
task. -/
def fixStoreA : Store :=
  { emptyStore with
    projects := [fixProject 1 "Errands"],
    tasks := [{ fixTask 10 with project_id := some 1 },
              { fixTask 11 with project_id := some 1, sort_order := 1 },
              { fixTask 12 with sort_order := 2 }] }

/-- One live task, id 3. -/
def fixStoreB : Store := { emptyStore with tasks := [fixTask 3] }

/-- One live tag named "Work". -/
def fixTagWork : Tag :=
  { id := 1, created_at := 0, updated_at := 0, name := "Work", color := "#fff",
    deleted_at := none }

def fixStoreTag : Store := { emptyStore with tags := [fixTagWork] }

/-- A live-but-archived project. -/
def fixProjOld : Project := { fixProject 5 "Old" with is_archived := true }

/-- One live project and one live-but-archived project. -/
def fixStoreC : Store :=
  { emptyStore with projects := [fixProject 2 "Active", fixProjOld] }

/-! ### Helper lemmas -/

theorem updateFirst_map_eq {p : α → Bool} {f : α → α} (g : α → β)
    (h : ∀ a, p a = true → g (f a) = g a) :
    ∀ l : List α, (updateFirst p f l).map g = l.map g := by
  intro l
  induction l with
  | nil => rfl
  | cons x xs ih =>
    by_cases hx : p x = true
    · simp [updateFirst, hx, h x hx]
    · simp [updateFirst, hx, ih]

theorem forall_mem_updateFirst {p : α → Bool} {f : α → α} {P : α → Prop}
    {l : List α} (h1 : ∀ a ∈ l, P a) (h2 : ∀ a ∈ l, p a = true → P (f a)) :
    ∀ b ∈ updateFirst p f l, P b := by
  induction l with
  | nil => intro b hb; cases hb
  | cons x xs ih =>
    intro b hb
    unfold updateFirst at hb
    by_cases hx : p x = true
    · rw [if_pos hx] at hb
      rcases List.mem_cons.mp hb with rfl | hb
      · exact h2 x (List.mem_cons_self _ _) hx
      · exact h1 b (List.mem_cons_of_mem _ hb)
    · rw [if_neg hx] at hb
      rcases List.mem_cons.mp hb with rfl | hb
      · exact h1 b (List.mem_cons_self _ _)
      · exact ih (fun a ha => h1 a (List.mem_cons_of_mem _ ha))
          (fun a ha hpa => h2 a (List.mem_cons_of_mem _ ha) hpa) b hb

theorem find?_updateFirst_self {p : α → Bool} {f : α → α} {l : List α} {a : α}
    (hfind : l.find? p = some a) (hfa : p (f a) = true) :
    (updateFirst p f l).find? p = some (f a) := by
  induction l with
  | nil => cases hfind
  | cons x xs ih =>
    by_cases hx : p x = true
    · rw [List.find?_cons_of_pos _ hx] at hfind
      cases hfind
      simp [updateFirst, hx, List.find?_cons_of_pos _ hfa]
    · rw [List.find?_cons_of_neg _ (by simpa using hx)] at hfind
      simp [updateFirst, hx, List.find?_cons_of_neg _ (by simpa using hx), ih hfind]

theorem mem_updateFirst {p : α → Bool} {f : α → α} {l : List α} {b : α}
    (hb : b ∈ updateFirst p f l) : b ∈ l ∨ ∃ a ∈ l, p a = true ∧ b = f a := by
  induction l with
  | nil => cases hb
  | cons x xs ih =>
    unfold updateFirst at hb
    by_cases hx : p x = true
    · rw [if_pos hx] at hb
      rcases List.mem_cons.mp hb with rfl | hb
      · exact Or.inr ⟨x, List.mem_cons_self _ _, hx, rfl⟩
      · exact Or.inl (List.mem_cons_of_mem _ hb)
    · rw [if_neg hx] at hb
      rcases List.mem_cons.mp hb with rfl | hb
      · exact Or.inl (List.mem_cons_self _ _)
      · rcases ih hb with h | ⟨a, ha, hpa, hfa⟩
        · exact Or.inl (List.mem_cons_of_mem _ h)
        · exact Or.inr ⟨a, List.mem_cons_of_mem _ ha, hpa, hfa⟩

theorem maxSortOrder_eq_none {l : List Rat} : maxSortOrder l = none ↔ l = [] := by
  cases l with
  | nil => simp [maxSortOrder]
  | cons x xs =>
    simp only [maxSortOrder]
    cases maxSortOrder xs <;> simp

theorem maxSortOrder_spec {l : List Rat} {m : Rat}
    (h : maxSortOrder l = some m) : m ∈ l ∧ ∀ x ∈ l, x ≤ m := by
  induction l generalizing m with
  | nil => cases h
  | cons x xs ih =>
    simp only [maxSortOrder] at h
    cases hxs : maxSortOrder xs with
    | none =>
      rw [hxs] at h
      cases h
      have : xs = [] := maxSortOrder_eq_none.mp hxs
      subst this
      simp
    | some m' =>
      rw [hxs] at h
      cases h
      rcases ih hxs with ⟨hm', hub⟩
      by_cases hle : x ≤ m'
      · refine ⟨by simp [hle, hm'], ?_⟩
        intro y hy
        rcases List.mem_cons.mp hy with rfl | hy
        · simp [hle]
        · simpa [hle] using hub y hy
      · refine ⟨by simp [hle], ?_⟩
        intro y hy
        rcases List.mem_cons.mp hy with rfl | hy
        · simp [hle]
        · have := hub y hy
          have hx : m' ≤ x := le_of_not_le hle
          simp [hle]
          exact le_trans this hx

theorem maxSortOrder_isSome {l : List Rat} (h : l ≠ []) :
    ∃ m, maxSortOrder l = some m := by
  cases hm : maxSortOrder l with
  | none => exact absurd (maxSortOrder_eq_none.mp hm) h
  | some m => exact ⟨m, rfl⟩

theorem listCharLe_total : ∀ a b : List Char, listCharLe a b = true ∨ listCharLe b a = true := by
  intro a
  induction a with
  | nil => intro b; left; rfl
  | cons x xs ih =>
    intro b
    cases b with
    | nil => right; rfl
    | cons y ys =>
      by_cases hxy : x = y
      · subst hxy
        simpa [listCharLe] using ih ys
      · rcases lt_trichotomy x y with h | h | h
        · left; simp [listCharLe, hxy, h]
        · exact absurd h hxy
        · right
          have hyx : y ≠ x := fun he => hxy he.symm
          simp [listCharLe, hyx, h]

theorem listCharLe_trans : ∀ a b c : List Char,
    listCharLe a b = true → listCharLe b c = true → listCharLe a c = true := by
  intro a
  induction a with
  | nil => intro b c _ _; rfl
  | cons x xs ih =>
    intro b c hab hbc
    cases b with
    | nil => simp [listCharLe] at hab
    | cons y ys =>
      cases c with
      | nil => simp [listCharLe] at hbc
      | cons z zs =>
        by_cases hxy : x = y <;> by_cases hyz : y = z
        · subst hxy; subst hyz
          simp only [listCharLe, if_pos rfl] at hab hbc ⊢
          exact ih ys zs hab hbc
        · subst hxy
          simp only [listCharLe, if_neg hyz, decide_eq_true_eq] at hbc ⊢
          exact hbc
        · subst hyz
          simp only [listCharLe, if_neg hxy, decide_eq_true_eq] at hab ⊢
          exact hab
        · simp only [listCharLe, if_neg hxy, decide_eq_true_eq] at hab
          simp only [listCharLe, if_neg hyz, decide_eq_true_eq] at hbc
          have hxz : x < z := lt_trans hab hbc
          simp [listCharLe, ne_of_lt hxz, hxz]

instance : IsTotal Project projOrd where
  total := by
    intro a b
    unfold projOrd projLe
    by_cases h : a.sort_order = b.sort_order
    · simp [h]
      exact listCharLe_total a.name.data b.name.data
    · have hne : b.sort_order ≠ a.sort_order := fun he => h he.symm
      rcases lt_trichotomy a.sort_order b.sort_order with hlt | he | hgt
      · left; simp [h, hlt]
      · exact absurd he h
      · right; simp [hne, hgt]

instance : IsTrans Project projOrd where
  trans := by
    intro a b c hab hbc
    unfold projOrd projLe at *
    by_cases h1 : a.sort_order = b.sort_order <;>
      by_cases h2 : b.sort_order = c.sort_order
    · rw [if_pos h1] at hab
      rw [if_pos h2] at hbc
      rw [if_pos (h1.trans h2)]
      exact listCharLe_trans _ _ _ hab hbc
    · rw [if_pos h1] at hab
      rw [if_neg h2, decide_eq_true_eq] at hbc
      rw [if_neg (h1 ▸ h2), decide_eq_true_eq]
      exact h1 ▸ hbc
    · rw [if_neg h1, decide_eq_true_eq] at hab
      rw [if_pos h2] at hbc
      rw [if_neg (fun he => h1 (h2 ▸ he)), decide_eq_true_eq]
      exact h2 ▸ hab
    · rw [if_neg h1, decide_eq_true_eq] at hab
      rw [if_neg h2, decide_eq_true_eq] at hbc
      have hac : a.sort_order < c.sort_order := lt_trans hab hbc
      rw [if_neg (ne_of_lt hac), decide_eq_true_eq]
      exact hac

instance : IsTotal Task taskOrd where
  total := fun a b => le_total a.sort_order b.sort_order

instance : IsTrans Task taskOrd where
  trans := fun _ _ _ hab hbc => le_trans hab hbc

instance : IsTotal Task taskIdOrd where
  total := fun a b => Nat.le_total a.id b.id

instance : IsTrans Task taskIdOrd where
  trans := fun _ _ _ hab hbc => Nat.le_trans hab hbc

theorem find?_of_id_nodup {l : List Project} {a : Project}
    (hnd : (l.map (fun p => p.id)).Nodup) (ha : a ∈ l) (hlive : a.deleted_at = none) :
    l.find? (fun p => p.id == a.id && p.deleted_at == none) = some a := by
  induction l with
  | nil => cases ha
  | cons x xs ih =>
    rw [List.map_cons, List.nodup_cons] at hnd
    rcases List.mem_cons.mp ha with rfl | ha
    · exact List.find?_cons_of_pos _ (by simp [hlive])
    · have hxa : x.id ≠ a.id := by
        intro he
        exact hnd.1 (he ▸ List.mem_map_of_mem (fun p => p.id) ha)
      rw [List.find?_cons_of_neg _ (by simp [hxa])]
      exact ih hnd.2 ha

theorem updateFirst_live_id {l : List Project} {pid now : Nat} {a : Project}
    (hnd : (l.map (fun p => p.id)).Nodup)
    (hfind : l.find? (fun p => p.id == pid && p.deleted_at == none) = some a) :
    ∀ b ∈ updateFirst (fun p => p.id == pid && p.deleted_at == none)
        (fun p => { p with deleted_at := some now }) l,
      b.deleted_at = none → b.id ≠ pid := by
  induction l with
  | nil => intro b hb; cases hb
  | cons x xs ih =>
    rw [List.map_cons, List.nodup_cons] at hnd
    intro b hb hblive
    unfold updateFirst at hb
    by_cases hx : (x.id == pid && x.deleted_at == none) = true
    · rw [if_pos hx] at hb
      rcases List.mem_cons.mp hb with rfl | hb
      · simp at hblive
      · intro hbid
        have hxid : x.id = pid := by
          simpa using (Bool.and_elim_left hx)
        exact hnd.1 (by
          rw [hxid, ← hbid]
          exact List.mem_map_of_mem (fun p => p.id) hb)
    · rw [if_neg hx] at hb
      rw [List.find?_cons_of_neg _ (by simpa using hx)] at hfind
      rcases List.mem_cons.mp hb with rfl | hb
      · intro hbid
        simp [hbid, hblive] at hx
      · exact ih hnd.2 hfind b hb hblive

theorem applyItems_nil (t : Task) : applyItems [] t = t := rfl

theorem applyItems_cons (i : Nat × Rat) (items : List (Nat × Rat)) (t : Task) :
    applyItems (i :: items) t = applyItems items (reorderStep i t) := rfl

theorem foldl_map_reorder (items : List (Nat × Rat)) :
    ∀ ts : List Task,
      items.foldl (fun l i => l.map (reorderStep i)) ts = ts.map (applyItems items) := by
  induction items with
  | nil =>
    intro ts
    have h : applyItems [] = fun t : Task => t := funext fun _ => rfl
    rw [List.foldl_nil, h, List.map_id']
  | cons i items ih =>
    intro ts
    rw [List.foldl_cons, ih, List.map_map]
    rfl

theorem applyItems_deleted {t : Task} (hdead : t.deleted_at ≠ none) :
    ∀ items, applyItems items t = t := by
  intro items
  induction items with
  | nil => rfl
  | cons i items ih =>
    rw [applyItems_cons]
    have hstep : reorderStep i t = t := by
      unfold reorderStep
      rw [if_neg]
      simp [hdead]
    rw [hstep, ih]

theorem getLast?_cons_ne_none (y : α) (ys : List α) : (y :: ys).getLast? ≠ none := by
  induction ys generalizing y with
  | nil => simp
  | cons z zs ih => rw [List.getLast?_cons_cons]; exact ih z

theorem applyItems_set {t : Task} (hlive : t.deleted_at = none) :
    ∀ (items : List (Nat × Rat)) (x : Rat),
      applyItems items { t with sort_order := x } =
        match ((items.filter (fun i => i.1 == t.id)).map Prod.snd).getLast? with
        | some v => { t with sort_order := v }
        | none => { t with sort_order := x } := by
  intro items
  induction items with
  | nil => intro x; rfl
  | cons i items ih =>
    intro x
    rw [applyItems_cons]
    by_cases hid : (i.1 == t.id) = true
    · have hteq : i.1 = t.id := by simpa using hid
      have hstep : reorderStep i { t with sort_order := x } = { t with sort_order := i.2 } := by
        unfold reorderStep
        rw [if_pos (by simp [hteq, hlive])]
      rw [hstep, ih i.2, List.filter_cons, if_pos hid, List.map_cons]
      cases hrest : ((items.filter (fun j => j.1 == t.id)).map Prod.snd) with
      | nil => simp
      | cons y ys =>
        rw [List.getLast?_cons_cons]
        cases h2 : (y :: ys).getLast? with
        | none => exact absurd h2 (getLast?_cons_ne_none y ys)
        | some v => rfl
    · have hstep : reorderStep i { t with sort_order := x } = { t with sort_order := x } := by
        unfold reorderStep
        rw [if_neg]
        simp only [Bool.and_eq_true, beq_iff_eq, not_and]
        intro he _
        exact (show i.1 ≠ t.id by simpa using hid) he.symm
      rw [hstep, ih x, List.filter_cons, if_neg hid]

theorem applyItems_eq (items : List (Nat × Rat)) (t : Task) :
    applyItems items t =
      match lastAssigned items t with
      | some v => { t with sort_order := v }
      | none => t := by
  by_cases hlive : t.deleted_at = none
  · have h0 : ({ t with sort_order := t.sort_order } : Task) = t := rfl
    have hset := applyItems_set hlive items t.sort_order
    rw [h0] at hset
    have h2 : lastAssigned items t =
        ((items.filter (fun i => i.1 == t.id)).map Prod.snd).getLast? := by
      unfold lastAssigned
      rw [if_pos hlive]
    rw [hset, h2]
  · have h1 : lastAssigned items t = none := by
      unfold lastAssigned
      rw [if_neg hlive]
    rw [applyItems_deleted hlive items, h1]

theorem anySuffix_iff {f : List Char → Bool} :
    ∀ s : List Char, (anySuffix f s = true ↔ ∃ t, t <:+ s ∧ f t = true) := by
  intro s
  induction s with
  | nil =>
    constructor
    · intro h
      exact ⟨[], List.suffix_refl [], h⟩
    · rintro ⟨t, ht, hf⟩
      have := List.suffix_nil.mp ht
      subst this
      exact hf
  | cons d s' ih =>
    simp only [anySuffix, Bool.or_eq_true, ih]
    constructor
    · rintro (h | ⟨t, ht, hf⟩)
      · exact ⟨d :: s', List.suffix_refl _, h⟩
      · exact ⟨t, ht.trans (List.suffix_cons d s'), hf⟩
    · rintro ⟨t, ht, hf⟩
      rcases List.suffix_cons_iff.mp ht with rfl | ht
      · exact Or.inl hf
      · exact Or.inr ⟨t, ht, hf⟩

theorem likeMatch_lit :
    ∀ lit : List Char, (∀ c ∈ lit, c ≠ '%' ∧ c ≠ '_') →
      ∀ s, (likeMatch (lit ++ ['%']) s = true ↔ lit <+: s) := by
  intro lit
  induction lit with
  | nil =>
    intro _ s
    simp only [List.nil_append, likeMatch, if_true, List.append_eq]
    constructor
    · intro _
      exact List.nil_prefix
    · intro _
      rw [anySuffix_iff]
      exact ⟨[], List.nil_suffix, rfl⟩
  | cons c lit ih =>
    intro hw s
    have hc := hw c (List.mem_cons_self _ _)
    simp only [List.cons_append, likeMatch, if_neg hc.1, List.append_eq]
    cases s with
    | nil =>
      simp
    | cons d s' =>
      simp only [Bool.and_eq_true, Bool.or_eq_true, decide_eq_true_eq]
      rw [ih (fun x hx => hw x (List.mem_cons_of_mem _ hx)) s']
      constructor
      · rintro ⟨hcd | hcd, hpre⟩
        · exact absurd hcd hc.2
        · exact hcd ▸ List.cons_prefix_cons.mpr ⟨rfl, hpre⟩
      · intro hpre
        rcases List.cons_prefix_cons.mp hpre with ⟨rfl, hpre2⟩
        exact ⟨Or.inr rfl, hpre2⟩

theorem asciiLower_wildcard {c : Char} (h1 : c ≠ '%') (h2 : c ≠ '_') :
    asciiLower c ≠ '%' ∧ asciiLower c ≠ '_' := by
  unfold asciiLower
  split
  case _ => exact ⟨by decide, by decide⟩
  case _ => exact ⟨by decide, by decide⟩
  case _ => exact ⟨by decide, by decide⟩
  case _ => exact ⟨by decide, by decide⟩
  case _ => exact ⟨by decide, by decide⟩
  case _ => exact ⟨by decide, by decide⟩
  case _ => exact ⟨by decide, by decide⟩
  case _ => exact ⟨by decide, by decide⟩
  case _ => exact ⟨by decide, by decide⟩
  case _ => exact ⟨by decide, by decide⟩
  case _ => exact ⟨by decide, by decide⟩
  case _ => exact ⟨by decide, by decide⟩
  case _ => exact ⟨by decide, by decide⟩
  case _ => exact ⟨by decide, by decide⟩
  case _ => exact ⟨by decide, by decide⟩
  case _ => exact ⟨by decide, by decide⟩
  case _ => exact ⟨by decide, by decide⟩
  case _ => exact ⟨by decide, by decide⟩
  case _ => exact ⟨by decide, by decide⟩
  case _ => exact ⟨by decide, by decide⟩
  case _ => exact ⟨by decide, by decide⟩
  case _ => exact ⟨by decide, by decide⟩
  case _ => exact ⟨by decide, by decide⟩
  case _ => exact ⟨by decide, by decide⟩
  case _ => exact ⟨by decide, by decide⟩
  case _ => exact ⟨by decide, by decide⟩
  case _ => exact ⟨h1, h2⟩

theorem wildcardFree_lower {q : String} (hw : wildcardFree q) :
    wildcardFree (lowerStr q) := by
  intro c hc
  have hc' : c ∈ q.data.map asciiLower := hc
  rcases List.mem_map.mp hc' with ⟨d, hd, rfl⟩
  exact asciiLower_wildcard (hw d hd).1 (hw d hd).2

theorem ilikeContains_iff {q : String} (hw : wildcardFree q) (s : String) :
    ilikeContains q s = true ↔ specContainsCI q s := by
  have hwl := wildcardFree_lower hw
  unfold ilikeContains specContainsCI
  simp only [likeMatch, if_true, List.append_eq]
  rw [anySuffix_iff]
  constructor
  · rintro ⟨t, ht, hf⟩
    exact List.infix_iff_prefix_suffix.mpr
      ⟨t, (likeMatch_lit _ hwl t).mp hf, ht⟩
  · intro hinf
    rcases List.infix_iff_prefix_suffix.mp hinf with ⟨t, hpre, hsuf⟩
    exact ⟨t, hsuf, (likeMatch_lit _ hwl t).mpr hpre⟩

theorem taskPred_eq (tid : Nat) :
    (fun u : Task => u.id == tid && u.deleted_at == none) =
      fun u : Task => u.id == tid && u.deleted_at == none := rfl

theorem update_task_shape {s : Store} {tid : Nat} {d : TaskUpdate} {t' : Task}
    {s' : Store} (h : s.update_task tid d = .ok (t', s')) :
    ∃ t, s.tasks.find? (fun u => u.id == tid && u.deleted_at == none) = some t ∧
      t' = applyTaskUpdate d t ∧
      s'.tasks = updateFirst (fun u => u.id == tid && u.deleted_at == none)
        (applyTaskUpdate d) s.tasks ∧
      s'.projects = s.projects ∧ s'.tags = s.tags := by
  unfold Store.update_task at h
  split at h
  · exact Except.noConfusion h
  case _ t hfind =>
    split at h
    · exact Except.noConfusion h
    · split at h
      · exact Except.noConfusion h
      · split at h
        · exact Except.noConfusion h
        · split at h
          · exact Except.noConfusion h
          · simp only [Except.ok.injEq, Prod.mk.injEq] at h
            obtain ⟨h1, h2⟩ := h
            exact ⟨t, hfind, h1.symm, by rw [← h2], by rw [← h2], by rw [← h2]⟩

theorem delete_task_shape {s : Store} {tid now : Nat} {s' : Store}
    (h : s.delete_task tid now = .ok s') :
    s'.tasks = updateFirst (fun u => u.id == tid && u.deleted_at == none)
      (fun t => { t with deleted_at := some now }) s.tasks ∧
    s'.projects = s.projects ∧ s'.tags = s.tags := by
  unfold Store.delete_task at h
  split at h
  · exact Except.noConfusion h
  · simp only [Except.ok.injEq] at h
    exact ⟨by rw [← h], by rw [← h], by rw [← h]⟩

theorem complete_toggle_shape {s : Store} {tid now : Nat} {t' : Task} {s' : Store}
    (h : s.complete_toggle tid now = .ok (t', s')) :
    ∃ t, s.tasks.find? (fun u => u.id == tid && u.deleted_at == none) = some t ∧
      t' = toggleTask now t ∧
      s'.tasks = updateFirst (fun u => u.id == tid && u.deleted_at == none)
        (toggleTask now) s.tasks ∧
      s'.projects = s.projects ∧ s'.tags = s.tags := by
  unfold Store.complete_toggle at h
  split at h
  · exact Except.noConfusion h
  case _ t hfind =>
    simp only [Except.ok.injEq, Prod.mk.injEq] at h
    obtain ⟨h1, h2⟩ := h
    exact ⟨t, hfind, h1.symm, by rw [← h2], by rw [← h2], by rw [← h2]⟩

theorem bulk_complete_shape {s : Store} {pid now : Nat} {n : Nat} {s' : Store}
    (h : s.bulk_complete pid now = .ok (n, s')) :
    validProject s pid = true ∧
    n = (s.tasks.filter (bulkPred pid)).length ∧
    s'.tasks = s.tasks.map (fun t =>
      if bulkPred pid t then { t with is_completed := true, completed_at := some now }
      else t) ∧
    s'.projects = s.projects ∧ s'.tags = s.tags := by
  unfold Store.bulk_complete at h
  split at h
  · exact Except.noConfusion h
  case _ hvp =>
    simp only [Except.ok.injEq, Prod.mk.injEq] at h
    obtain ⟨h1, h2⟩ := h
    exact ⟨by simpa using hvp, h1.symm, by rw [← h2], by rw [← h2], by rw [← h2]⟩

theorem reorder_shape {s : Store} {items : List (Nat × Rat)} {s' : Store}
    (h : s.reorder items = .ok s') :
    items ≠ [] ∧ s'.tasks = s.tasks.map (applyItems items) ∧
    s'.projects = s.projects ∧ s'.tags = s.tags := by
  unfold Store.reorder at h
  split at h
  · exact Except.noConfusion h
  case _ hne =>
    simp only [Except.ok.injEq] at h
    refine ⟨hne, ?_, by rw [← h], by rw [← h]⟩
    rw [← h]
    exact foldl_map_reorder items s.tasks

theorem create_task_shape {s : Store} {d : TaskCreate} {id now : Nat} {t : Task}
    {s' : Store} (h : s.create_task d id now = .ok (t, s')) :
    t = { id := id, created_at := now, updated_at := now, title := d.title,
          notes := some d.notes, notes_plain := some d.notes,
          is_completed := false, completed_at := none, priority := d.priority,
          due_date := d.due_date, due_time := d.due_time, start_date := none,
          project_id := d.project_id, sort_order := nextSortOrder s,
          sort_order_board := 0, deleted_at := none } ∧
    s'.tasks = s.tasks ++ [t] ∧ s'.projects = s.projects ∧ s'.tags = s.tags := by
  unfold Store.create_task at h
  split at h
  · exact Except.noConfusion h
  · split at h
    · exact Except.noConfusion h
    · split at h
      · exact Except.noConfusion h
      · simp only [Except.ok.injEq, Prod.mk.injEq] at h
        obtain ⟨h1, h2⟩ := h
        refine ⟨h1.symm, ?_, by rw [← h2], by rw [← h2]⟩
        rw [← h2, h1]

theorem delete_project_shape {s : Store} {pid now : Nat} {s' : Store}
    (h : s.delete_project pid now = .ok s') :
    ∃ p, s.projects.find? (fun q => q.id == pid && q.deleted_at == none) = some p ∧
      s'.tasks = s.tasks.map (unassignStep pid) ∧
      s'.projects = updateFirst (fun q => q.id == pid && q.deleted_at == none)
        (fun q => { q with deleted_at := some now }) s.projects ∧
      s'.tags = s.tags := by
  unfold Store.delete_project at h
  split at h
  · exact Except.noConfusion h
  case _ p hfind =>
    simp only [Except.ok.injEq] at h
    exact ⟨p, hfind, by rw [← h], by rw [← h], by rw [← h]⟩

theorem create_project_shape {s : Store} {d : ProjectCreate} {id now : Nat}
    {p : Project} {s' : Store} (h : s.create_project d id now = .ok (p, s')) :
    p = { id := id, created_at := now, updated_at := now, name := d.name,
          description := d.description, color := d.color, icon := d.icon,
          view_mode := d.view_mode, is_archived := false, sort_order := 0,
          deleted_at := none } ∧
    s'.projects = s.projects ++ [p] ∧ s'.tasks = s.tasks ∧ s'.tags = s.tags := by
  unfold Store.create_project at h
  simp only [Except.ok.injEq, Prod.mk.injEq] at h
  obtain ⟨h1, h2⟩ := h
  refine ⟨h1.symm, ?_, by rw [← h2], by rw [← h2]⟩
  rw [← h2, h1]

theorem update_project_shape {s : Store} {pid : Nat} {d : ProjectUpdate}
    {p' : Project} {s' : Store} (h : s.update_project pid d = .ok (p', s')) :
    s'.projects = updateFirst (fun q => q.id == pid && q.deleted_at == none)
      (applyProjectUpdate d) s.projects ∧
    s'.tasks = s.tasks ∧ s'.tags = s.tags := by
  unfold Store.update_project at h
  split at h
  · exact Except.noConfusion h
  · simp only [Except.ok.injEq, Prod.mk.injEq] at h
    obtain ⟨_, h2⟩ := h
    exact ⟨by rw [← h2], by rw [← h2], by rw [← h2]⟩

theorem create_tag_shape {s : Store} {n c : String} {id now : Nat} {g : Tag}
    {s' : Store} (h : s.create_tag n c id now = .ok (g, s')) :
    g = { id := id, created_at := now, updated_at := now, name := pyStrip n,
          color := pyStrip c, deleted_at := none } ∧
    s'.tags = s.tags ++ [g] ∧ s'.tasks = s.tasks ∧ s'.projects = s.projects := by
  unfold Store.create_tag at h
  split at h
  · exact Except.noConfusion h
  · split at h
    · exact Except.noConfusion h
    · split at h
      · exact Except.noConfusion h
      · split at h
        · exact Except.noConfusion h
        · simp only [Except.ok.injEq, Prod.mk.injEq] at h
          obtain ⟨h1, h2⟩ := h
          refine ⟨h1.symm, ?_, by rw [← h2], by rw [← h2]⟩
          rw [← h2, h1]

theorem update_tag_shape {s : Store} {gid : Nat} {d : TagUpdate} {g' : Tag}
    {s' : Store} (h : s.update_tag gid d = .ok (g', s')) :
    s'.tasks = s.tasks ∧ s'.projects = s.projects ∧
    s'.tags = updateFirst (fun o => o.id == gid && o.deleted_at == none)
      (fun t => { t with name := d.name.getD t.name,
                         color := d.color.getD t.color }) s.tags := by
  unfold Store.update_tag at h
  split at h
  · exact Except.noConfusion h
  · split at h
    · exact Except.noConfusion h
    · split at h
      · exact Except.noConfusion h
      · simp only [Except.ok.injEq, Prod.mk.injEq] at h
        obtain ⟨_, h2⟩ := h
        exact ⟨by rw [← h2], by rw [← h2], by rw [← h2]⟩

theorem delete_tag_shape {s : Store} {gid now : Nat} {s' : Store}
    (h : s.delete_tag gid now = .ok s') :
    s'.tags = updateFirst (fun g => g.id == gid && g.deleted_at == none)
      (fun g => { g with deleted_at := some now }) s.tags ∧
    s'.tasks = s.tasks ∧ s'.projects = s.projects := by
  unfold Store.delete_tag at h
  split at h
  · exact Except.noConfusion h
  · simp only [Except.ok.injEq] at h
    exact ⟨by rw [← h], by rw [← h], by rw [← h]⟩

theorem unassignStep_fields (pid : Nat) (t : Task) :
    (unassignStep pid t).id = t.id ∧
    (unassignStep pid t).deleted_at = t.deleted_at ∧
    (unassignStep pid t).is_completed = t.is_completed ∧
    (unassignStep pid t).completed_at = t.completed_at ∧
    (unassignStep pid t).updated_at = t.updated_at ∧
    (unassignStep pid t).notes = t.notes ∧
    (unassignStep pid t).notes_plain = t.notes_plain := by
  unfold unassignStep
  split <;> exact ⟨rfl, rfl, rfl, rfl, rfl, rfl, rfl⟩

theorem toggleTask_ok (now : Nat) (t : Task) : TaskOK (toggleTask now t) := by
  unfold TaskOK toggleTask
  cases t.is_completed <;> simp

theorem reachable_taskOK {s : Store} (hr : Reachable s) : ∀ t ∈ s.tasks, TaskOK t := by
  induction hr with
  | empty => intro t ht; cases ht
  | create_project hr hop ih => rw [(create_project_shape hop).2.2.1]; exact ih
  | update_project hr hop ih => rw [(update_project_shape hop).2.1]; exact ih
  | delete_project hr hop ih =>
    obtain ⟨p, _, htasks, _, _⟩ := delete_project_shape hop
    rw [htasks]
    intro t ht
    rcases List.mem_map.mp ht with ⟨u, hu, rfl⟩
    unfold TaskOK
    rw [(unassignStep_fields _ u).2.2.1, (unassignStep_fields _ u).2.2.2.1]
    exact ih u hu
  | create_tag hr hop ih => rw [(create_tag_shape hop).2.2.1]; exact ih
  | update_tag hr hop ih => rw [(update_tag_shape hop).1]; exact ih
  | delete_tag hr hop ih => rw [(delete_tag_shape hop).2.1]; exact ih
  | create_task hr hop ih =>
    obtain ⟨ht', htasks, _, _⟩ := create_task_shape hop
    rw [htasks]
    intro u hu
    rcases List.mem_append.mp hu with hu | hu
    · exact ih u hu
    · have := List.mem_singleton.mp hu
      subst this
      rw [ht']
      rfl
  | update_task hr hop ih =>
    obtain ⟨t0, _, _, htasks, _, _⟩ := update_task_shape hop
    rw [htasks]
    exact forall_mem_updateFirst ih (fun a ha _ => ih a ha)
  | delete_task hr hop ih =>
    obtain ⟨htasks, _, _⟩ := delete_task_shape hop
    rw [htasks]
    exact forall_mem_updateFirst ih (fun a ha _ => ih a ha)
  | complete_toggle hr hop ih =>
    obtain ⟨t0, _, _, htasks, _, _⟩ := complete_toggle_shape hop
    rw [htasks]
    exact forall_mem_updateFirst ih (fun a _ _ => toggleTask_ok _ a)
  | bulk_complete hr hop ih =>
    obtain ⟨_, _, htasks, _, _⟩ := bulk_complete_shape hop
    rw [htasks]
    intro t ht
    rcases List.mem_map.mp ht with ⟨u, hu, rfl⟩
    split
    · rfl
    · exact ih u hu
  | reorder hr hop ih =>
    obtain ⟨_, htasks, _, _⟩ := reorder_shape hop
    rw [htasks]
    intro t ht
    rcases List.mem_map.mp ht with ⟨u, hu, rfl⟩
    rw [applyItems_eq]
    split
    · exact ih u hu
    · exact ih u hu

theorem applyItems_idem (items : List (Nat × Rat)) (t : Task) :
    applyItems items (applyItems items t) = applyItems items t := by
  by_cases hlive : t.deleted_at = none
  · rw [applyItems_eq items t]
    cases hlast : lastAssigned items t with
    | none =>
      unfold lastAssigned at hlast
      rw [if_pos hlive] at hlast
      rw [applyItems_eq items t]
      unfold lastAssigned
      rw [if_pos hlive, hlast]
    | some v =>
      unfold lastAssigned at hlast
      rw [if_pos hlive] at hlast
      rw [applyItems_set hlive items v, hlast]
  · rw [applyItems_deleted hlive items, applyItems_deleted hlive items]

theorem applyItems_fields (items : List (Nat × Rat)) (t : Task) :
    (applyItems items t).is_completed = t.is_completed ∧
    (applyItems items t).completed_at = t.completed_at ∧
    (applyItems items t).updated_at = t.updated_at ∧
    (applyItems items t).notes_plain = t.notes_plain := by
  rw [applyItems_eq]
  split <;> exact ⟨rfl, rfl, rfl, rfl⟩

theorem reorder_ok_of_ne {s : Store} {items : List (Nat × Rat)} (hne : items ≠ []) :
    s.reorder items = .ok { s with tasks := s.tasks.map (applyItems items) } := by
  unfold Store.reorder
  rw [if_neg hne, foldl_map_reorder]

theorem complete_toggle_ok {s : Store} {tid now : Nat} {t : Task}
    (hfind : s.tasks.find? (fun u => u.id == tid && u.deleted_at == none) = some t) :
    s.complete_toggle tid now =
      .ok (toggleTask now t,
        { s with
            tasks := updateFirst (fun u => u.id == tid && u.deleted_at == none)
              (toggleTask now) s.tasks }) := by
  unfold Store.complete_toggle
  rw [hfind]

theorem maxSortOrder_ratRange (k : Nat) :
    (match maxSortOrder (ratRange k) with
     | none => (0 : Rat)
     | some m => m + 1) = (k : Rat) := by
  cases k with
  | zero => simp [ratRange, maxSortOrder]
  | succ n =>
    have hne : ratRange (n + 1) ≠ [] := by
      simp only [ratRange, ne_eq, List.map_eq_nil_iff, List.range_eq_nil]
      omega
    obtain ⟨m, hm⟩ := maxSortOrder_isSome hne
    rw [hm]
    rcases maxSortOrder_spec hm with ⟨hmem, hub⟩
    have hn_mem : ((n : Nat) : Rat) ∈ ratRange (n + 1) := by
      simp only [ratRange, List.mem_map]
      exact ⟨n, List.mem_range.mpr (Nat.lt_succ_self n), rfl⟩
    have h1 : ((n : Nat) : Rat) ≤ m := hub _ hn_mem
    simp only [ratRange, List.mem_map] at hmem
    rcases hmem with ⟨i, hi, rfl⟩
    have hi' : i ≤ n := Nat.le_of_lt_succ (List.mem_range.mp hi)
    have h2 : (i : Rat) ≤ (n : Rat) := by exact_mod_cast hi'
    have h3 : (i : Rat) = (n : Rat) := le_antisymm h2 h1
    rw [h3]
    push_cast
    ring

theorem create_task_simple_ok (s : Store) (d : TaskCreate) (id now : Nat)
    (hproj : d.project_id = none) (htags : d.tag_ids = [])
    (hdate : ∀ ds, d.due_date = some ds → isValidISODate ds = true) :
    ∃ t s', s.create_task d id now = .ok (t, s') := by
  unfold Store.create_task
  rw [hproj, htags]
  rw [if_neg (by simp)]
  rw [if_neg (by simp [missingTagIds])]
  have hcond : ¬ ((match d.due_date with
      | some ds => !isValidISODate ds
      | none => false) = true) := by
    cases hdd : d.due_date with
    | none => simp
    | some ds => simp [hdate ds hdd]
  rw [if_neg hcond]
  exact ⟨_, _, rfl⟩

theorem createMany_ratRange :
    ∀ (ds : List (TaskCreate × Nat × Nat)) (s : Store) (k : Nat),
      (∀ x ∈ ds, x.1.project_id = none ∧ x.1.tag_ids = [] ∧
        ∀ v, x.1.due_date = some v → isValidISODate v = true) →
      (∀ u ∈ s.tasks, u.deleted_at = none) →
      s.tasks.map (fun t => t.sort_order) = ratRange k →
      ∃ s', createMany s ds = .ok s' ∧
        s'.tasks.map (fun t => t.sort_order) = ratRange (k + ds.length) := by
  intro ds
  induction ds with
  | nil =>
    intro s k _ _ hmap
    exact ⟨s, rfl, by simpa using hmap⟩
  | cons x ds ih =>
    obtain ⟨d, id, now⟩ := x
    intro s k hds hlive hmap
    have hd := hds (d, id, now) (List.mem_cons_self _ _)
    obtain ⟨t, s₁, hcr⟩ := create_task_simple_ok s d id now hd.1 hd.2.1 hd.2.2
    obtain ⟨ht, htasks, _, _⟩ := create_task_shape hcr
    have hfilter : s.tasks.filter (fun u => u.deleted_at == none) = s.tasks := by
      rw [List.filter_eq_self]
      intro u hu
      simp [hlive u hu]
    have hsort : t.sort_order = (k : Rat) := by
      rw [ht]
      show nextSortOrder s = (k : Rat)
      unfold nextSortOrder
      rw [hfilter, hmap]
      exact maxSortOrder_ratRange k
    have hlive₁ : ∀ u ∈ s₁.tasks, u.deleted_at = none := by
      rw [htasks]
      intro u hu
      rcases List.mem_append.mp hu with hu | hu
      · exact hlive u hu
      · have := List.mem_singleton.mp hu
        subst this
        rw [ht]
    have hmap₁ : s₁.tasks.map (fun t => t.sort_order) = ratRange (k + 1) := by
      rw [htasks, List.map_append, hmap]
      unfold ratRange
      rw [List.range_succ, List.map_append]
      simp [hsort]
    obtain ⟨s', hrest, hmap'⟩ := ih s₁ (k + 1) (fun y hy => hds y (List.mem_cons_of_mem _ hy))
      hlive₁ hmap₁
    refine ⟨s', ?_, ?_⟩
    · unfold createMany
      rw [hcr]
      exact hrest
    · rw [hmap']
      congr 1
      simp [List.length_cons]
      omega

theorem dropWhile_head_not {p : α → Bool} {l : List α} {a : α} {t : List α}
    (h : l.dropWhile p = a :: t) : p a = false := by
  have hh := List.head?_dropWhile_not p l
  rw [h] at hh
  exact hh

theorem dropWhile_idem (p : α → Bool) (l : List α) :
    (l.dropWhile p).dropWhile p = l.dropWhile p := by
  cases h : l.dropWhile p with
  | nil => rfl
  | cons a t =>
    exact List.dropWhile_cons_of_neg (by simp [dropWhile_head_not h])

theorem stripChars_idem (x : List Char) :
    stripChars (stripChars x) = stripChars x := by
  unfold stripChars
  set y := x.dropWhile Char.isWhitespace with hy
  set z := y.reverse.dropWhile Char.isWhitespace with hz
  have h1 : z.reverse.dropWhile Char.isWhitespace = z.reverse := by
    cases hrz : z.reverse with
    | nil => simp
    | cons b u =>
      apply List.dropWhile_cons_of_neg
      have hzl : z.getLast? = some b := by
        rw [← List.head?_reverse, hrz]
        rfl
      have hsuf : y.reverse.dropWhile Char.isWhitespace <:+ y.reverse :=
        List.dropWhile_suffix _
      obtain ⟨pre, hpre⟩ := hsuf
      have hyl : y.reverse.getLast? = some b := by
        rw [← hpre, List.getLast?_append]
        rw [show y.reverse.dropWhile Char.isWhitespace = z from rfl, hzl]
        rfl
      have hyh : y.head? = some b := by
        rw [← List.getLast?_reverse, hyl]
      have hnot := List.head?_dropWhile_not Char.isWhitespace x
      rw [← hy, hyh] at hnot
      simp [hnot]
  rw [h1, List.reverse_reverse]
  have h2 : z.dropWhile Char.isWhitespace = z := by
    rw [hz, dropWhile_idem]
  rw [h2]

theorem pyStrip_idem (s : String) : pyStrip (pyStrip s) = pyStrip s :=
  congrArg String.mk (stripChars_idem s.data)

theorem get_tasks_default {s : Store} :
    s.get_tasks = .ok (List.insertionSort taskOrd
      (s.tasks.filter (fun t => t.deleted_at == none))) := by
  unfold Store.get_tasks
  rw [if_neg (by simp), if_neg (by simp)]
  have hf : (fun t : Task => t.deleted_at == none
      && (match (none : Option Nat) with
          | some pid => t.project_id == some pid
          | none => true)
      && (match (none : Option Bool) with
          | some b => t.is_completed == b
          | none => true)
      && (match (none : Option Nat) with
          | some p => t.priority == p
          | none => true)
      && (match (none : Option String) with
          | some ds => t.due_date == some ds
          | none => true))
      = (fun t : Task => t.deleted_at == none) := by
    funext t
    simp
  rw [hf]

theorem mem_get_projects {s : Store} {e : Project × Nat} (he : e ∈ s.get_projects) :
    e.1 ∈ s.projects ∧ e.1.deleted_at = none ∧ e.1.is_archived = false ∧
    e.2 = (s.tasks.filter (fun t => t.project_id == some e.1.id &&
      t.deleted_at == none && t.is_completed == false)).length := by
  unfold Store.get_projects at he
  rcases List.mem_map.mp he with ⟨q, hq, rfl⟩
  have hq' : q ∈ s.projects.filter
      (fun p => p.deleted_at == none && p.is_archived == false) :=
    (List.perm_insertionSort projOrd _).mem_iff.mp hq
  rcases List.mem_filter.mp hq' with ⟨hmem, hcond⟩
  simp only [Bool.and_eq_true, beq_iff_eq] at hcond
  exact ⟨hmem, hcond.1, by simpa using hcond.2, rfl⟩

/-! ### Claim theorems -/

/-- C7: for a non-deleted task satisfying the completion-pair invariant,
toggling completion twice succeeds and returns `is_completed` to its
original value and `completed_at` to its original nullness. -/
theorem C7_toggle_involution {s : Store} {tid now₁ now₂ : Nat} {t₀ : Task}
    (hfind : s.tasks.find? (fun u => u.id == tid && u.deleted_at == none) = some t₀)
    (hok : TaskOK t₀) :
    ∃ t₁ s₁ t₂ s₂,
      s.complete_toggle tid now₁ = .ok (t₁, s₁) ∧
      s₁.complete_toggle tid now₂ = .ok (t₂, s₂) ∧
      t₂.is_completed = t₀.is_completed ∧
      t₂.completed_at.isSome = t₀.completed_at.isSome := by
  have hp := List.find?_some hfind
  have hfind₁ : (updateFirst (fun u => u.id == tid && u.deleted_at == none)
      (toggleTask now₁) s.tasks).find?
        (fun u => u.id == tid && u.deleted_at == none) = some (toggleTask now₁ t₀) :=
    find?_updateFirst_self hfind hp
  refine ⟨_, _, _, _, complete_toggle_ok hfind, complete_toggle_ok hfind₁, ?_, ?_⟩
  · unfold toggleTask
    cases t₀.is_completed <;> simp
  · unfold TaskOK at hok
    unfold toggleTask
    cases hic : t₀.is_completed <;> rw [hic] at hok <;> simp [hok]

/-- C7 witness: the theorem applied to a concrete one-task store. -/
theorem C7_toggle_involution_witness :
    (fixStoreB.tasks.find? (fun u => u.id == 3 && u.deleted_at == none) =
      some (fixTask 3)) ∧ TaskOK (fixTask 3) ∧
    (∃ t₁ s₁ t₂ s₂,
      fixStoreB.complete_toggle 3 7 = .ok (t₁, s₁) ∧
      s₁.complete_toggle 3 9 = .ok (t₂, s₂) ∧
      t₂.is_completed = (fixTask 3).is_completed ∧
      t₂.completed_at.isSome = (fixTask 3).completed_at.isSome) :=
  ⟨by decide, by rfl, C7_toggle_involution (by decide) (by rfl)⟩

/-- C1: deleting an existing non-deleted project succeeds: every
non-deleted task assigned to it gets `project_id := none` while keeping
its id and staying non-deleted (unassigned tasks are untouched), no
surviving live task points at the project, the project disappears from
the project listing, and every previously live task still appears in the
task listing. Deleting a missing or already-deleted project fails with
`NotFound`, returning no store — the transaction rolls back, so no task
is modified. -/
theorem C1_delete_project {s : Store} {pid now : Nat} {p : Project}
    (hnd : (s.projects.map (fun q => q.id)).Nodup)
    (hp : p ∈ s.projects) (hpid : p.id = pid) (hlive : p.deleted_at = none) :
    (∃ s', s.delete_project pid now = .ok s' ∧
      (∀ t ∈ s.tasks, t.deleted_at = none →
        ∃ t' ∈ s'.tasks, t'.id = t.id ∧ t'.deleted_at = none ∧
          (t.project_id = some pid → t'.project_id = none) ∧
          (t.project_id ≠ some pid → t' = t)) ∧
      (∀ t' ∈ s'.tasks, t'.deleted_at = none → t'.project_id ≠ some pid) ∧
      (∀ e ∈ s'.get_projects, e.1.id ≠ pid) ∧
      (∀ t ∈ s.tasks, t.deleted_at = none →
        ∃ ts, s'.get_tasks = .ok ts ∧ ∃ t' ∈ ts, t'.id = t.id)) ∧
    (∀ (s₀ : Store) (pid₀ now₀ : Nat),
      (∀ q ∈ s₀.projects, q.id = pid₀ → q.deleted_at ≠ none) →
      s₀.delete_project pid₀ now₀ = .error .notFound) := by
  constructor
  · have hfind : s.projects.find? (fun q => q.id == pid && q.deleted_at == none) =
        some p := by
      rw [← hpid]
      exact find?_of_id_nodup hnd hp hlive
    have hdel : s.delete_project pid now = .ok
        { s with
            tasks := s.tasks.map (unassignStep pid),
            projects := updateFirst (fun q => q.id == pid && q.deleted_at == none)
              (fun q => { q with deleted_at := some now }) s.projects } := by
      unfold Store.delete_project
      rw [hfind]
    refine ⟨_, hdel, ?_, ?_, ?_, ?_⟩
    · intro t ht htlive
      refine ⟨unassignStep pid t, List.mem_map_of_mem _ ht,
        (unassignStep_fields pid t).1,
        ((unassignStep_fields pid t).2.1).trans htlive, ?_, ?_⟩
      · intro ha
        unfold unassignStep
        rw [if_pos (by simp [ha, htlive])]
      · intro ha
        unfold unassignStep
        rw [if_neg (by simp [ha])]
    · intro t' ht' hlive'
      rcases List.mem_map.mp ht' with ⟨u, hu, rfl⟩
      intro hcontra
      unfold unassignStep at hlive' hcontra
      by_cases hguard : (u.project_id == some pid && u.deleted_at == none) = true
      · rw [if_pos hguard] at hcontra
        exact Option.noConfusion hcontra
      · rw [if_neg hguard] at hlive' hcontra
        simp only [Bool.and_eq_true, beq_iff_eq, not_and] at hguard
        exact hguard hcontra (by simp [hlive'])
    · intro e he
      rcases mem_get_projects he with ⟨hmem, helive, _, _⟩
      exact updateFirst_live_id hnd hfind e.1 hmem helive
    · intro t ht htlive
      refine ⟨_, get_tasks_default, unassignStep pid t, ?_,
        (unassignStep_fields pid t).1⟩
      apply (List.perm_insertionSort taskOrd _).mem_iff.mpr
      apply List.mem_filter.mpr
      refine ⟨List.mem_map_of_mem _ ht, ?_⟩
      rw [(unassignStep_fields pid t).2.1]
      simp [htlive]
  · intro s₀ pid₀ now₀ hnone
    unfold Store.delete_project
    have hfind : s₀.projects.find? (fun q => q.id == pid₀ && q.deleted_at == none) =
        none := by
      rw [List.find?_eq_none]
      intro q hq
      simp only [Bool.and_eq_true, beq_iff_eq, not_and]
      intro hqid
      simpa using hnone q hq hqid
    rw [hfind]

/-- C1 witness: deleting project 1 of a concrete store holding two of its
tasks and one unassigned task. -/
theorem C1_delete_project_witness :
    ((fixStoreA.projects.map (fun q => q.id)).Nodup ∧
      fixProject 1 "Errands" ∈ fixStoreA.projects ∧
      (fixProject 1 "Errands").id = 1 ∧
      (fixProject 1 "Errands").deleted_at = none) ∧
    ((∃ s', fixStoreA.delete_project 1 7 = .ok s' ∧
      (∀ t ∈ fixStoreA.tasks, t.deleted_at = none →
        ∃ t' ∈ s'.tasks, t'.id = t.id ∧ t'.deleted_at = none ∧
          (t.project_id = some 1 → t'.project_id = none) ∧
          (t.project_id ≠ some 1 → t' = t)) ∧
      (∀ t' ∈ s'.tasks, t'.deleted_at = none → t'.project_id ≠ some 1) ∧
      (∀ e ∈ s'.get_projects, e.1.id ≠ 1) ∧
      (∀ t ∈ fixStoreA.tasks, t.deleted_at = none →
        ∃ ts, s'.get_tasks = .ok ts ∧ ∃ t' ∈ ts, t'.id = t.id)) ∧
    (∀ (s₀ : Store) (pid₀ now₀ : Nat),
      (∀ q ∈ s₀.projects, q.id = pid₀ → q.deleted_at ≠ none) →
      s₀.delete_project pid₀ now₀ = .error .notFound)) :=
  ⟨⟨by decide, by decide, by decide, by decide⟩,
    @C1_delete_project fixStoreA 1 7 (fixProject 1 "Errands")
      (by decide) (by decide) (by decide) (by decide)⟩

/-- C2: the claim's conflict half holds, but its reuse-after-delete half
fails in the code. On the empty store, creating "Work" succeeds, then
both "Work" and " Work " fail with `Conflict` (the service's live-only
duplicate check, `tags.py:20-27`). After soft-deleting the first tag,
however, creating "Work" again does NOT succeed: the soft-deleted row
still holds the name, the service's live-only check passes, and the
INSERT violates the table-level `UNIQUE` on `tag.name` (`schema.py:86`),
raising an `IntegrityError` that no layer catches — an HTTP 500 instead
of the claimed success. The deliberate `deleted_at IS NULL` filter in
the service's own check shows the spec's live-only uniqueness is the
intent; the column-level `unique=True` is the slip. -/
theorem C2_tag_name_conflict :
    ∃ g₁ s₁, emptyStore.create_tag "Work" "#fff" 1 5 = .ok (g₁, s₁) ∧
      s₁.create_tag "Work" "#abc" 2 6 = .error .conflict ∧
      s₁.create_tag " Work " "#abc" 2 6 = .error .conflict ∧
      ∃ s₂, s₁.delete_tag 1 7 = .ok s₂ ∧
        s₂.create_tag "Work" "#abc" 3 8 = .error .integrityError ∧
        ∀ g₃ s₃, s₂.create_tag "Work" "#abc" 3 8 ≠ .ok (g₃, s₃) := by
  refine ⟨_, _, rfl, rfl, rfl, _, rfl, rfl, ?_⟩
  intro g₃ s₃ h
  have h' : (Except.error Err.integrityError : Except Err (Tag × Store)) =
      .ok (g₃, s₃) := h
  exact Except.noConfusion h'

/-- C3 counterexample: `bulk_complete` — not only `complete_toggle` —
changes `is_completed` and `completed_at` together: bulk-completing
project 1 turns task 10 from `(false, none)` into `(true, some 8)`. -/
theorem C3_counterexample :
    ∃ n s', fixStoreA.bulk_complete 1 8 = .ok (n, s') ∧
      (∃ t ∈ fixStoreA.tasks, t.id = 10 ∧ t.is_completed = false ∧
        t.completed_at = none) ∧
      (∃ t' ∈ s'.tasks, t'.id = 10 ∧ t'.is_completed = true ∧
        t'.completed_at = some 8) := by
  refine ⟨_, _, rfl, by decide, by decide⟩

/-- C3 amended: in every reachable store `completed_at` is non-null
exactly when `is_completed` is true; `complete_toggle` and
`bulk_complete` are the only operations that change this pair —
`create_task` initializes it to `(false, none)` and leaves existing
pairs alone, and partial update, delete, reorder and project deletion
preserve the pair of every task. -/
theorem C3_completion_pair :
    (∀ s : Store, Reachable s → ∀ t ∈ s.tasks,
      t.completed_at.isSome = t.is_completed) ∧
    (∀ (s : Store) (d : TaskCreate) (id now : Nat) (t : Task) (s' : Store),
      s.create_task d id now = .ok (t, s') →
      t.is_completed = false ∧ t.completed_at = none ∧
      s'.tasks.map (fun u => (u.is_completed, u.completed_at)) =
        s.tasks.map (fun u => (u.is_completed, u.completed_at)) ++ [(false, none)]) ∧
    (∀ (s : Store) (tid : Nat) (d : TaskUpdate) (t' : Task) (s' : Store),
      s.update_task tid d = .ok (t', s') →
      s'.tasks.map (fun u => (u.is_completed, u.completed_at)) =
        s.tasks.map (fun u => (u.is_completed, u.completed_at))) ∧
    (∀ (s : Store) (tid now : Nat) (s' : Store),
      s.delete_task tid now = .ok s' →
      s'.tasks.map (fun u => (u.is_completed, u.completed_at)) =
        s.tasks.map (fun u => (u.is_completed, u.completed_at))) ∧
    (∀ (s : Store) (items : List (Nat × Rat)) (s' : Store),
      s.reorder items = .ok s' →
      s'.tasks.map (fun u => (u.is_completed, u.completed_at)) =
        s.tasks.map (fun u => (u.is_completed, u.completed_at))) ∧
    (∀ (s : Store) (pid now : Nat) (s' : Store),
      s.delete_project pid now = .ok s' →
      s'.tasks.map (fun u => (u.is_completed, u.completed_at)) =
        s.tasks.map (fun u => (u.is_completed, u.completed_at))) := by
  refine ⟨?_, ?_, ?_, ?_, ?_, ?_⟩
  · intro s hr t ht
    exact reachable_taskOK hr t ht
  · intro s d id now t s' h
    obtain ⟨ht, htasks, _, _⟩ := create_task_shape h
    refine ⟨by rw [ht], by rw [ht], ?_⟩
    rw [htasks, List.map_append, ht]
    rfl
  · intro s tid d t' s' h
    obtain ⟨t0, _, _, htasks, _, _⟩ := update_task_shape h
    rw [htasks]
    apply updateFirst_map_eq
    intro a _
    rfl
  · intro s tid now s' h
    rw [(delete_task_shape h).1]
    apply updateFirst_map_eq
    intro a _
    rfl
  · intro s items s' h
    rw [(reorder_shape h).2.1, List.map_map]
    refine List.map_congr_left (fun t _ => ?_)
    show ((applyItems items t).is_completed, (applyItems items t).completed_at) = _
    rw [(applyItems_fields items t).1, (applyItems_fields items t).2.1]
  · intro s pid now s' h
    obtain ⟨p, _, htasks, _, _⟩ := delete_project_shape h
    rw [htasks, List.map_map]
    refine List.map_congr_left (fun t _ => ?_)
    show ((unassignStep pid t).is_completed, (unassignStep pid t).completed_at) = _
    rw [(unassignStep_fields pid t).2.2.1, (unassignStep_fields pid t).2.2.2.1]

/-- C3 witness: the invariant read off a concrete reachable store (one
task created from the empty store). -/
theorem C3_completion_pair_witness :
    Reachable fixStoreB ∧
    (∀ t ∈ fixStoreB.tasks, t.completed_at.isSome = t.is_completed) :=
  have hr : Reachable fixStoreB :=
    Reachable.create_task Reachable.empty
      (show emptyStore.create_task { title := "t" } 3 0 = .ok (fixTask 3, fixStoreB)
        from rfl)
  ⟨hr, C3_completion_pair.1 fixStoreB hr⟩

/-- C8 counterexample: the query `"_"` acts as an SQL LIKE wildcard, not
a literal character — searching it returns the task titled `"t"` even
though `"_"` is not a case-insensitive substring of the title or notes. -/
theorem C8_counterexample :
    fixStoreB.search "_" = [fixTask 3] ∧
    (fixTask 3).title = "t" ∧ (fixTask 3).notes = some "" ∧
    (fixTask 3).notes_plain = some "" ∧
    ¬ specContainsCI "_" "t" ∧ ¬ specContainsCI "_" "" := by
  refine ⟨by decide, by decide, by decide, by decide, by decide, by decide⟩

/-- C8 amended: search trims the query and returns `[]` (not an error)
when the trimmed query is empty or longer than 100 characters; otherwise
it returns at most 50 non-deleted tasks ordered by id whose title,
plain notes or raw notes match the trimmed query as a case-insensitive
SQL LIKE `%q%` pattern — `%` and `_` inside the query act as wildcards;
for wildcard-free queries the LIKE match coincides with
case-insensitive substring containment; completed tasks are excluded
unless `include_completed` is true; and the result is complete whenever
at most 50 tasks match. -/
theorem C8_search :
    (∀ (s : Store) (q : String) (pid : Option Nat) (ic : Bool),
      pyStrip q = "" ∨ (pyStrip q).length > 100 →
      s.search q pid ic = []) ∧
    (∀ (s : Store) (q : String) (pid : Option Nat) (ic : Bool) (nq : String),
      normalizeQuery q = some nq →
      (s.search q pid ic).length ≤ 50 ∧
      (s.search q pid ic).Pairwise (fun a b => a.id ≤ b.id) ∧
      (∀ t ∈ s.search q pid ic, t ∈ s.tasks ∧ t.deleted_at = none ∧
        (ilikeContains nq t.title = true ∨ optIlike nq t.notes_plain = true ∨
          optIlike nq t.notes = true) ∧
        (ic = false → t.is_completed = false) ∧
        (∀ p, pid = some p → t.project_id = some p)) ∧
      ((s.tasks.filter (searchCond nq pid ic)).length ≤ 50 →
        ∀ t ∈ s.tasks, searchCond nq pid ic t = true →
          t ∈ s.search q pid ic)) ∧
    (∀ nq text : String, wildcardFree nq →
      (ilikeContains nq text = true ↔ specContainsCI nq text)) := by
  refine ⟨?_, ?_, ?_⟩
  · intro s q pid ic h
    have hn : normalizeQuery q = none := by
      unfold normalizeQuery
      rw [if_pos h]
    unfold Store.search
    rw [hn]
  · intro s q pid ic nq h
    have hs : s.search q pid ic = (List.insertionSort taskIdOrd
        (s.tasks.filter (searchCond nq pid ic))).take 50 := by
      unfold Store.search
      rw [h]
    refine ⟨?_, ?_, ?_, ?_⟩
    · rw [hs]
      exact List.length_take_le _ _
    · rw [hs]
      exact ((List.sorted_insertionSort taskIdOrd _).sublist
        (List.take_sublist _ _))
    · intro t ht
      rw [hs] at ht
      have ht2 : t ∈ List.insertionSort taskIdOrd
          (s.tasks.filter (searchCond nq pid ic)) :=
        List.take_subset _ _ ht
      have ht3 : t ∈ s.tasks.filter (searchCond nq pid ic) :=
        (List.perm_insertionSort taskIdOrd _).mem_iff.mp ht2
      rcases List.mem_filter.mp ht3 with ⟨htm, hcond⟩
      unfold searchCond at hcond
      simp only [Bool.and_eq_true, Bool.or_eq_true, beq_iff_eq] at hcond
      refine ⟨htm, hcond.1.1.1, ?_, ?_, ?_⟩
      · rcases hcond.1.1.2 with (hm | hm) | hm
        · exact Or.inl hm
        · exact Or.inr (Or.inl (by simpa using hm))
        · exact Or.inr (Or.inr (by simpa using hm))
      · intro hic
        rw [hic] at hcond
        simpa using hcond.2
      · intro p hp
        rw [hp] at hcond
        simpa using hcond.1.2
    · intro hlen t htm hcond
      rw [hs]
      have hlen2 : (List.insertionSort taskIdOrd
          (s.tasks.filter (searchCond nq pid ic))).length ≤ 50 := by
        rw [(List.perm_insertionSort taskIdOrd _).length_eq]
        exact hlen
      rw [List.take_of_length_le hlen2]
      exact (List.perm_insertionSort taskIdOrd _).mem_iff.mpr
        (List.mem_filter.mpr ⟨htm, hcond⟩)
  · intro nq text hw
    exact ilikeContains_iff hw text

/-- C8 witness: the rejection clause at a whitespace-only query. -/
theorem C8_search_witness :
    (pyStrip "   " = "" ∨ (pyStrip "   ").length > 100) ∧
    fixStoreB.search "   " = [] :=
  ⟨Or.inl (by decide),
    C8_search.1 fixStoreB "   " none false (Or.inl (by decide))⟩

/-- C9 counterexample: after an update that changes `notes`,
`notes_plain` keeps its old value — `update_task` never writes the
mirror, so it goes stale. -/
theorem C9_counterexample :
    ∃ t s₁ t' s₂,
      emptyStore.create_task { title := "A", notes := "a" } 1 5 = .ok (t, s₁) ∧
      t.notes_plain = t.notes ∧
      s₁.update_task 1 { notes := some (some "b") } = .ok (t', s₂) ∧
      t'.notes = some "b" ∧ t'.notes_plain = some "a" ∧
      t'.notes_plain ≠ t'.notes := by
  exact ⟨_, _, _, _, rfl, rfl, rfl, rfl, rfl, by decide⟩

/-- C9 amended: `notes_plain` equals `notes` right after `create_task`,
but `update_task` never modifies `notes_plain` — every task's mirror
value is preserved verbatim by updates, so after an update that changes
`notes` the mirror keeps the previous plain text instead of tracking the
new notes. -/
theorem C9_notes_plain :
    (∀ (s : Store) (d : TaskCreate) (id now : Nat) (t : Task) (s' : Store),
      s.create_task d id now = .ok (t, s') → t.notes_plain = t.notes) ∧
    (∀ (s : Store) (tid : Nat) (d : TaskUpdate) (t' : Task) (s' : Store),
      s.update_task tid d = .ok (t', s') →
      s'.tasks.map (fun u => u.notes_plain) = s.tasks.map (fun u => u.notes_plain) ∧
      ∃ t0, s.tasks.find? (fun u => u.id == tid && u.deleted_at == none) = some t0 ∧
        t'.notes_plain = t0.notes_plain ∧
        (∀ v, d.notes = some v → t'.notes = v)) := by
  constructor
  · intro s d id now t s' h
    rw [(create_task_shape h).1]
  · intro s tid d t' s' h
    obtain ⟨t0, hfind, ht', htasks, _, _⟩ := update_task_shape h
    refine ⟨?_, t0, hfind, ?_, ?_⟩
    · rw [htasks]
      apply updateFirst_map_eq
      intro a _
      rfl
    · rw [ht']
      rfl
    · intro v hv
      rw [ht']
      show d.notes.getD t0.notes = v
      rw [hv]
      rfl

/-- C9 witness: the creation clause at a concrete input. -/
theorem C9_notes_plain_witness :
    ∃ t s₁, emptyStore.create_task { title := "A", notes := "a" } 1 5 =
        .ok (t, s₁) ∧ t.notes_plain = t.notes := by
  refine ⟨_, _, rfl, ?_⟩
  exact C9_notes_plain.1 emptyStore { title := "A", notes := "a" } 1 5 _ _ rfl

/-- C6 counterexample: `updated_at` is not refreshed by mutations —
after creating a task at time 5 and completing it at time 9, its
`updated_at` is still 5, not 9. -/
theorem C6_counterexample :
    ∃ t s₁ t' s₂,
      emptyStore.create_task { title := "A" } 1 5 = .ok (t, s₁) ∧
      s₁.complete_toggle 1 9 = .ok (t', s₂) ∧
      t'.is_completed = true ∧ t'.updated_at = 5 ∧ t'.updated_at ≠ 9 := by
  exact ⟨_, _, _, _, rfl, rfl, rfl, rfl, by decide⟩

/-- C6 amended: `created_at` and `updated_at` are both set to the
creation instant when a row is created, but no mutating operation ever
refreshes `updated_at`: partial update, delete, complete-toggle,
bulk-complete and reorder preserve every task's `updated_at`; project
update and project delete preserve every project's (and every task's);
tag update and delete preserve every tag's. -/
theorem C6_updated_at :
    (∀ (s : Store) (d : TaskCreate) (id now : Nat) (t : Task) (s' : Store),
      s.create_task d id now = .ok (t, s') →
      t.created_at = now ∧ t.updated_at = now) ∧
    (∀ (s : Store) (d : ProjectCreate) (id now : Nat) (p : Project) (s' : Store),
      s.create_project d id now = .ok (p, s') →
      p.created_at = now ∧ p.updated_at = now) ∧
    (∀ (s : Store) (n c : String) (id now : Nat) (g : Tag) (s' : Store),
      s.create_tag n c id now = .ok (g, s') →
      g.created_at = now ∧ g.updated_at = now) ∧
    (∀ (s : Store) (tid : Nat) (d : TaskUpdate) (t' : Task) (s' : Store),
      s.update_task tid d = .ok (t', s') →
      s'.tasks.map (fun u => u.updated_at) = s.tasks.map (fun u => u.updated_at)) ∧
    (∀ (s : Store) (tid now : Nat) (s' : Store),
      s.delete_task tid now = .ok s' →
      s'.tasks.map (fun u => u.updated_at) = s.tasks.map (fun u => u.updated_at)) ∧
    (∀ (s : Store) (tid now : Nat) (t' : Task) (s' : Store),
      s.complete_toggle tid now = .ok (t', s') →
      s'.tasks.map (fun u => u.updated_at) = s.tasks.map (fun u => u.updated_at)) ∧
    (∀ (s : Store) (pid now n : Nat) (s' : Store),
      s.bulk_complete pid now = .ok (n, s') →
      s'.tasks.map (fun u => u.updated_at) = s.tasks.map (fun u => u.updated_at)) ∧
    (∀ (s : Store) (items : List (Nat × Rat)) (s' : Store),
      s.reorder items = .ok s' →
      s'.tasks.map (fun u => u.updated_at) = s.tasks.map (fun u => u.updated_at)) ∧
    (∀ (s : Store) (pid : Nat) (d : ProjectUpdate) (p' : Project) (s' : Store),
      s.update_project pid d = .ok (p', s') →
      s'.projects.map (fun q => q.updated_at) =
        s.projects.map (fun q => q.updated_at)) ∧
    (∀ (s : Store) (pid now : Nat) (s' : Store),
      s.delete_project pid now = .ok s' →
      s'.projects.map (fun q => q.updated_at) =
        s.projects.map (fun q => q.updated_at) ∧
      s'.tasks.map (fun u => u.updated_at) = s.tasks.map (fun u => u.updated_at)) ∧
    (∀ (s : Store) (gid : Nat) (d : TagUpdate) (g' : Tag) (s' : Store),
      s.update_tag gid d = .ok (g', s') →
      s'.tags.map (fun o => o.updated_at) = s.tags.map (fun o => o.updated_at)) ∧
    (∀ (s : Store) (gid now : Nat) (s' : Store),
      s.delete_tag gid now = .ok s' →
      s'.tags.map (fun o => o.updated_at) = s.tags.map (fun o => o.updated_at)) := by
  refine ⟨?_, ?_, ?_, ?_, ?_, ?_, ?_, ?_, ?_, ?_, ?_, ?_⟩
  · intro s d id now t s' h
    rw [(create_task_shape h).1]
    exact ⟨rfl, rfl⟩
  · intro s d id now p s' h
    rw [(create_project_shape h).1]
    exact ⟨rfl, rfl⟩
  · intro s n c id now g s' h
    rw [(create_tag_shape h).1]
    exact ⟨rfl, rfl⟩
  · intro s tid d t' s' h
    obtain ⟨t0, _, _, htasks, _, _⟩ := update_task_shape h
    rw [htasks]
    apply updateFirst_map_eq
    intro a _
    rfl
  · intro s tid now s' h
    rw [(delete_task_shape h).1]
    apply updateFirst_map_eq
    intro a _
    rfl
  · intro s tid now t' s' h
    obtain ⟨t0, _, _, htasks, _, _⟩ := complete_toggle_shape h
    rw [htasks]
    apply updateFirst_map_eq
    intro a _
    rfl
  · intro s pid now n s' h
    rw [(bulk_complete_shape h).2.2.1, List.map_map]
    refine List.map_congr_left (fun t _ => ?_)
    show (if bulkPred pid t then
        ({ t with is_completed := true, completed_at := some now } : Task)
      else t).updated_at = t.updated_at
    split
    · rfl
    · rfl
  · intro s items s' h
    rw [(reorder_shape h).2.1, List.map_map]
    refine List.map_congr_left (fun t _ => ?_)
    show (applyItems items t).updated_at = t.updated_at
    exact (applyItems_fields items t).2.2.1
  · intro s pid d p' s' h
    rw [(update_project_shape h).1]
    apply updateFirst_map_eq
    intro a _
    rfl
  · intro s pid now s' h
    obtain ⟨p, _, htasks, hprojects, _⟩ := delete_project_shape h
    constructor
    · rw [hprojects]
      apply updateFirst_map_eq
      intro a _
      rfl
    · rw [htasks, List.map_map]
      refine List.map_congr_left (fun t _ => ?_)
      show (unassignStep pid t).updated_at = t.updated_at
      exact (unassignStep_fields pid t).2.2.2.2.1
  · intro s gid d g' s' h
    rw [(update_tag_shape h).2.2]
    apply updateFirst_map_eq
    intro a _
    rfl
  · intro s gid now s' h
    rw [(delete_tag_shape h).1]
    apply updateFirst_map_eq
    intro a _
    rfl

/-- C6 witness: the delete-task clause at a concrete input. -/
theorem C6_updated_at_witness :
    ∃ s', fixStoreB.delete_task 3 9 = .ok s' ∧
      s'.tasks.map (fun u => u.updated_at) =
        fixStoreB.tasks.map (fun u => u.updated_at) := by
  refine ⟨_, rfl, ?_⟩
  exact C6_updated_at.2.2.2.2.1 fixStoreB 3 9 _ rfl

/-- C4: (append policy) a successful `create_task` gives the new task a
`sort_order` equal to the maximum over the non-deleted tasks plus one, or
zero when no non-deleted task exists; (sequence) creating `n` tasks in a
row from the empty store assigns the i-th created task `sort_order` `i`
(0-indexed; list order is creation order). The sequence conjunct asks
each request's `due_date`, when present, to be a calendar-valid ISO
date — otherwise `create_task` dies on an uncaught `ValueError` at
`tasks.py:114` instead of creating anything. -/
theorem C4_append_policy :
    (∀ (s : Store) (d : TaskCreate) (id now : Nat) (t : Task) (s' : Store),
      s.create_task d id now = .ok (t, s') →
      ((s.tasks.filter (fun u => u.deleted_at == none) = [] ∧ t.sort_order = 0) ∨
       (∃ m, (∃ u ∈ s.tasks, u.deleted_at = none ∧ u.sort_order = m) ∧
         (∀ u ∈ s.tasks, u.deleted_at = none → u.sort_order ≤ m) ∧
         t.sort_order = m + 1))) ∧
    (∀ ds : List (TaskCreate × Nat × Nat),
      (∀ x ∈ ds, x.1.project_id = none ∧ x.1.tag_ids = [] ∧
        ∀ v, x.1.due_date = some v → isValidISODate v = true) →
      ∃ s', createMany emptyStore ds = .ok s' ∧
        s'.tasks.map (fun t => t.sort_order) = ratRange ds.length) := by
  constructor
  · intro s d id now t s' h
    obtain ⟨ht, _, _, _⟩ := create_task_shape h
    cases hmax : maxSortOrder ((s.tasks.filter (fun u => u.deleted_at == none)).map
        (fun u => u.sort_order)) with
    | none =>
      left
      constructor
      · exact List.map_eq_nil_iff.mp (maxSortOrder_eq_none.mp hmax)
      · rw [ht]
        show nextSortOrder s = 0
        unfold nextSortOrder
        rw [hmax]
    | some m =>
      right
      rcases maxSortOrder_spec hmax with ⟨hmem, hub⟩
      rcases List.mem_map.mp hmem with ⟨u, hu, huso⟩
      rcases List.mem_filter.mp hu with ⟨hus, hulive⟩
      refine ⟨m, ⟨u, hus, by simpa using hulive, huso⟩, ?_, ?_⟩
      · intro v hv hvlive
        exact hub _ (List.mem_map.mpr ⟨v, List.mem_filter.mpr ⟨hv, by simp [hvlive]⟩, rfl⟩)
      · rw [ht]
        show nextSortOrder s = m + 1
        unfold nextSortOrder
        rw [hmax]
  · intro ds hds
    obtain ⟨s', h1, h2⟩ := createMany_ratRange ds emptyStore 0 hds
      (by intro u hu; cases hu) (by rfl)
    exact ⟨s', h1, by simpa using h2⟩

/-- C4 witness: two consecutive creations from the empty store get sort
orders `[0, 1]`; neither request carries a `due_date`. -/
theorem C4_append_policy_witness :
    (∀ x ∈ [(({ title := "A" } : TaskCreate), (1 : Nat), (5 : Nat)),
            ({ title := "B" }, 2, 6)],
      x.1.project_id = none ∧ x.1.tag_ids = [] ∧
        ∀ v, x.1.due_date = some v → isValidISODate v = true) ∧
    (∃ s', createMany emptyStore
        [(({ title := "A" } : TaskCreate), 1, 5), ({ title := "B" }, 2, 6)] = .ok s' ∧
      s'.tasks.map (fun t => t.sort_order) =
        ratRange ([(({ title := "A" } : TaskCreate), (1 : Nat), (5 : Nat)),
            ({ title := "B" }, 2, 6)]).length) := by
  have hh : ∀ x ∈ [(({ title := "A" } : TaskCreate), (1 : Nat), (5 : Nat)),
      ({ title := "B" }, 2, 6)],
      x.1.project_id = none ∧ x.1.tag_ids = [] ∧
        ∀ v, x.1.due_date = some v → isValidISODate v = true := by
    intro x hx
    rcases List.mem_cons.mp hx with h | hx
    · subst h
      exact ⟨rfl, rfl, fun v hv => Option.noConfusion hv⟩
    · rcases List.mem_singleton.mp hx with h
      subst h
      exact ⟨rfl, rfl, fun v hv => Option.noConfusion hv⟩
  exact ⟨hh, C4_append_policy.2 _ hh⟩

/-- C10: the project listing contains exactly the non-deleted,
non-archived projects; it is ordered by `sort_order` ascending with ties
broken by `name` ascending (byte order); each entry carries the count of
that project's non-deleted, incomplete tasks; and an archived (but not
deleted) project is excluded from the listing yet still retrievable by id
through `get_project`. -/
theorem C10_project_listing (s : Store) :
    (∀ p : Project, (∃ c, (p, c) ∈ s.get_projects) ↔
      (p ∈ s.projects ∧ p.deleted_at = none ∧ p.is_archived = false)) ∧
    ((s.get_projects.map Prod.fst).Pairwise (fun a b =>
      a.sort_order < b.sort_order ∨
      (a.sort_order = b.sort_order ∧ listCharLe a.name.data b.name.data = true))) ∧
    (∀ e ∈ s.get_projects,
      e.2 = (s.tasks.filter (fun t => t.project_id == some e.1.id &&
        t.deleted_at == none && t.is_completed == false)).length) ∧
    (∀ p ∈ s.projects, p.deleted_at = none → p.is_archived = true →
      (∀ c, (p, c) ∉ s.get_projects) ∧
      ((s.projects.map (fun q => q.id)).Nodup →
        s.get_project p.id = .ok (p, (s.tasks.filter
          (fun t => t.project_id == some p.id && t.deleted_at == none &&
            t.is_completed == false)).length))) := by
  refine ⟨?_, ?_, ?_, ?_⟩
  · intro p
    constructor
    · rintro ⟨c, hc⟩
      rcases mem_get_projects hc with ⟨h1, h2, h3, _⟩
      exact ⟨h1, h2, h3⟩
    · rintro ⟨hmem, hlive, harch⟩
      refine ⟨(s.tasks.filter (fun t => t.project_id == some p.id &&
        t.deleted_at == none && t.is_completed == false)).length, ?_⟩
      unfold Store.get_projects
      apply List.mem_map_of_mem
      apply (List.perm_insertionSort projOrd _).mem_iff.mpr
      exact List.mem_filter.mpr ⟨hmem, by simp [hlive, harch]⟩
  · unfold Store.get_projects
    rw [List.map_map]
    have hco : (Prod.fst ∘ fun p : Project =>
        (p, (s.tasks.filter (fun t => t.project_id == some p.id &&
          t.deleted_at == none && t.is_completed == false)).length)) =
        fun p : Project => p := rfl
    rw [hco, List.map_id']
    apply List.Pairwise.imp ?_
      (List.sorted_insertionSort projOrd
        (s.projects.filter (fun p => p.deleted_at == none && p.is_archived == false)))
    intro a b h
    unfold projOrd projLe at h
    by_cases heq : a.sort_order = b.sort_order
    · rw [if_pos heq] at h
      exact Or.inr ⟨heq, h⟩
    · rw [if_neg heq] at h
      exact Or.inl (by simpa using h)
  · intro e he
    exact (mem_get_projects he).2.2.2
  · intro p hp hlive harch
    constructor
    · intro c hc
      have := (mem_get_projects hc).2.2.1
      rw [harch] at this
      cases this
    · intro hnd
      have hfind := find?_of_id_nodup hnd hp hlive
      unfold Store.get_project
      rw [hfind]

/-- C10 witness: the archived-project clause applied to a concrete store
with one active and one archived project. -/
theorem C10_project_listing_witness :
    (fixProjOld ∈ fixStoreC.projects ∧ fixProjOld.deleted_at = none ∧
      fixProjOld.is_archived = true ∧
      (fixStoreC.projects.map (fun q => q.id)).Nodup) ∧
    (∀ c, (fixProjOld, c) ∉ fixStoreC.get_projects) ∧
    fixStoreC.get_project fixProjOld.id = .ok (fixProjOld,
      (fixStoreC.tasks.filter (fun t => t.project_id == some fixProjOld.id &&
        t.deleted_at == none && t.is_completed == false)).length) :=
  ⟨⟨by decide, by decide, by decide, by decide⟩,
    ((C10_project_listing fixStoreC).2.2.2 fixProjOld (by decide) (by decide)
      (by decide)).1,
    ((C10_project_listing fixStoreC).2.2.2 fixProjOld (by decide) (by decide)
      (by decide)).2 (by decide)⟩

/-- C5: every non-empty reorder batch succeeds; each non-deleted task named
by the batch receives exactly the (last) `sort_order` paired with its id,
deleted or unnamed ids are silently skipped and leave every other task
untouched; and applying the same batch twice yields the same store as
applying it once. -/
theorem C5_reorder_batch {s : Store} {items : List (Nat × Rat)}
    (hne : items ≠ []) :
    ∃ s', s.reorder items = .ok s' ∧
      s'.tasks = s.tasks.map (fun t =>
        match lastAssigned items t with
        | some v => { t with sort_order := v }
        | none => t) ∧
      s'.reorder items = .ok s' := by
  refine ⟨{ s with tasks := s.tasks.map (applyItems items) }, reorder_ok_of_ne hne,
    ?_, ?_⟩
  · exact List.map_congr_left (fun t _ => applyItems_eq items t)
  · rw [reorder_ok_of_ne hne]
    have h2 : ({ s with tasks := s.tasks.map (applyItems items) } : Store).tasks.map
        (applyItems items) = s.tasks.map (applyItems items) := by
      show (s.tasks.map (applyItems items)).map (applyItems items) = _
      rw [List.map_map]
      exact List.map_congr_left (fun t _ => applyItems_idem items t)
    rw [h2]

/-- C5 witness: the theorem applied to a concrete batch naming one live
task (id 3, new sort order 5) and one unknown id (99). -/
theorem C5_reorder_batch_witness :
    ([((3 : Nat), (5 : Rat)), (99, 7)] ≠ []) ∧
    (∃ s', fixStoreB.reorder [(3, 5), (99, 7)] = .ok s' ∧
      s'.tasks = fixStoreB.tasks.map (fun t =>
        match lastAssigned [(3, 5), (99, 7)] t with
        | some v => { t with sort_order := v }
        | none => t) ∧
      s'.reorder [(3, 5), (99, 7)] = .ok s') :=
  ⟨by decide, C5_reorder_batch (by decide)⟩

end Goldfish
